import Mathlib

/-!
Verification development for the graph layout engine of `db-erd-gen`.

The definitions below are a shallow embedding of the TypeScript sources:

* `src/src/utils/layoutAlgorithms.ts` — the layout strategies
  (`calculateHierarchicalLayout`, `calculateCircularLayout`,
  `calculateForceDirectedLayout`, `calculateXLayout`, `calculateYLayout`,
  `calculateBoxLayout`) and the entity→graph extraction
  `inputDataToNodeAndEdges` (the version with dangling-edge pruning and the
  pair-count edge filter).

JavaScript `number` arithmetic is modelled over `ℚ` for the layouts that use
only field operations, and over `ℝ` for the two layouts that call
`Math.sqrt` / `Math.cos` / `Math.sin` (force-directed and circular).
JavaScript's `x || d` idiom on numbers (default when `x` is `0`) is modelled
by `orQ`.  Mutable `Map`/`Set` scratch state is modelled by association
lists / lists threaded through folds.
-/

namespace DbErdGen

/-! ## Data model (entity side)

The `interface/inputData` module itself is not among the sources; the shapes
below follow its uses in `inputDataToNodeAndEdges` and spec §3. -/

/-- Modelled from the spec: the `foreignTo` payload of a column,
`{name, column}` — the referenced entity and column (spec §3). -/
structure ForeignKey where
  name : String
  column : String
deriving DecidableEq, Repr

/-- Modelled from the spec: a Column record
`{name, dataType, isPrimaryKey, notNull, unique, foreignTo?}` (spec §3). -/
structure Column where
  name : String
  dataType : String
  isPrimaryKey : Bool
  notNull : Bool
  unique : Bool
  foreignTo : Option ForeignKey
deriving DecidableEq, Repr

/-- Modelled from the spec: a Table/Entity record `{name, columns[], position?}`
with an optional width hint (spec §3, §6; `(table as any).width ?? 320`). -/
structure Table where
  name : String
  columns : List Column
  position : Option (ℚ × ℚ)
  width : Option ℚ
deriving DecidableEq, Repr

/-- A reactflow edge as synthesized by `inputDataToNodeAndEdges`
(fields `id, source, sourceHandle, target, targetHandle, type`). -/
structure REdge where
  id : String
  source : String
  sourceHandle : String
  target : String
  targetHandle : String
  etype : String
deriving DecidableEq, Repr

/-- The `tableInfo` object stored in `node.data` by `inputDataToNodeAndEdges`. -/
structure TableInfo where
  name : String
  columns : List Column
  position : ℚ × ℚ
  width : ℚ
deriving DecidableEq, Repr

/-- A reactflow node as built by `inputDataToNodeAndEdges`
(`{id, type: 'textUpdater', position, data}`). -/
structure TNode where
  id : String
  ntype : String
  position : ℚ × ℚ
  data : TableInfo
deriving DecidableEq, Repr

/-! ## Extraction and edge synthesis (`inputDataToNodeAndEdges`) -/

/-- The edges pushed for one table: one per column with `foreignTo` set,
in column order, with the handle-id naming scheme of the source. -/
def tableEdges (t : Table) : List REdge :=
  t.columns.filterMap (fun k =>
    match k.foreignTo with
    | some ft =>
        let sourceHandle := ft.name ++ "_" ++ ft.column ++ "_right"
        let targetHandle := t.name ++ "_" ++ k.name ++ "_left"
        some { id := "reactflow__" ++ sourceHandle ++ "_" ++ targetHandle ++ "_gen"
             , source := ft.name
             , sourceHandle := sourceHandle
             , target := t.name
             , targetHandle := targetHandle
             , etype := "custom" }
    | none => none)

/-- `initialEdges` accumulated over the whole table loop. -/
def synthesizedEdges (tablesArr : List Table) : List REdge :=
  tablesArr.flatMap tableEdges

/-- The node-building loop: `initTableDistance` starts at `320` and grows by
`250` per table; `table.position || {x: d, y: 500}` picks the stored position
when present. -/
def buildNodes : List Table → ℚ → List TNode
  | [], _ => []
  | t :: rest, d =>
      let pos := t.position.getD (d, 500)
      { id := t.name
      , ntype := "textUpdater"
      , position := pos
      , data := { name := t.name, columns := t.columns, position := pos
                , width := t.width.getD 320 } }
        :: buildNodes rest (d + 250)

/-- `initNodes` of `inputDataToNodeAndEdges`. -/
def initNodes (tablesArr : List Table) : List TNode :=
  buildNodes tablesArr 320

/-- Dangling-edge pruning: the reverse-iteration `splice` loop removes exactly
the edges whose `source` or `target` has no node, keeping the relative order
of the rest — i.e. a filter. -/
def pruneEdges (ns : List TNode) (es : List REdge) : List REdge :=
  es.filter (fun e =>
    (ns.any (fun n => n.id == e.source)) && (ns.any (fun n => n.id == e.target)))

/-- JavaScript string `<`: lexicographic comparison by code unit.  (Lean's
own `String` order is the same relation, but its `Decidable` instance does
not reduce in the kernel, so the comparison is spelled out over the
character list.) -/
def charsLt : List Char → List Char → Bool
  | [], [] => false
  | [], _ :: _ => true
  | _ :: _, [] => false
  | a :: as, b :: bs =>
      if a.toNat < b.toNat then true
      else if b.toNat < a.toNat then false
      else charsLt as bs

/-- JavaScript `a < b` on strings. -/
def jsLt (a b : String) : Bool := charsLt a.data b.data

/-- The unordered-pair key used by the edge filter:
`source < target ? source+"|"+target : target+"|"+source`. -/
def pairKey (e : REdge) : String :=
  if jsLt e.source e.target then e.source ++ "|" ++ e.target
  else e.target ++ "|" ++ e.source

/-- `edgeCountMap.set(key, (edgeCountMap.get(key) || 0) + 1)` on an
association list. -/
def bumpCount : List (String × Nat) → String → List (String × Nat)
  | [], k => [(k, 1)]
  | (k0, c) :: rest, k =>
      if k0 = k then (k0, c + 1) :: rest else (k0, c) :: bumpCount rest k

/-- Building `edgeCountMap` over the (pruned) edge list. -/
def buildCountMap (es : List REdge) : List (String × Nat) :=
  es.foldl (fun m e => bumpCount m (pairKey e)) []

/-- The secondary edge filter: keep `e` iff
`edgeCountMap.get(key) === 2 || edgeCountMap.get(key) === 0`
(a missing key compares unequal to both, like `undefined`). -/
def filterEdgesStep (es : List REdge) : List REdge :=
  let m := buildCountMap es
  es.filter (fun e =>
    ((m.lookup (pairKey e)) == some 2) || ((m.lookup (pairKey e)) == some 0))

/-- Number of (surviving) edges sharing `e`'s unordered (source, target) pair. -/
def pairCount (es : List REdge) (e : REdge) : Nat :=
  es.countP (fun x => pairKey x = pairKey e)

/-- Definition taken from the spec's words, for the refinement claim: a filter
that keeps an edge iff its unordered pair count is exactly 2 (the claim is
that the code's `=== 2 || === 0` filter returns exactly this list). -/
def filterEdgesPairOfTwo (es : List REdge) : List REdge :=
  es.filter (fun e => pairCount es e == 2)

/-- The result record `{nodes, edges}`. -/
structure NodesAndEdges where
  nodes : List TNode
  edges : List REdge
deriving DecidableEq, Repr

/-- The edges surviving the dangling-edge prune inside
`inputDataToNodeAndEdges` (the list the count map and filter run over). -/
def survivingEdges (tablesArr : List Table) : List REdge :=
  pruneEdges (initNodes tablesArr) (synthesizedEdges tablesArr)

/-- `inputDataToNodeAndEdges` at its default configuration
`{type: 'linear'}`: the layout switch is skipped (`positionedNodes`
stays `initNodes`), and the returned edges are the pruned list passed
through the pair-count filter.  The edge pipeline is identical for every
configuration. -/
def inputDataToNodeAndEdges (tablesArr : List Table) : NodesAndEdges :=
  { nodes := initNodes tablesArr
  , edges := filterEdgesStep (survivingEdges tablesArr) }

/-! ## Layout-side node model -/

/-- The `node.data` payload read by the layout functions: a column list
(for the `47 + 28·n` height heuristic) and an optional numeric width hint. -/
structure NodeData where
  name : String
  columns : List Column
  width : Option ℚ
deriving DecidableEq, Repr

/-- A reactflow node as consumed by the rational-arithmetic layouts. -/
structure LNode where
  id : String
  data : NodeData
  position : ℚ × ℚ
deriving DecidableEq, Repr

/-- A default node for `getD`-style indexing in statements. -/
def dummyNode : LNode :=
  { id := "", data := { name := "", columns := [], width := none }, position := (0, 0) }

instance : Inhabited LNode := ⟨dummyNode⟩

/-- JavaScript `x || d` on numbers: `0` falls through to the default. -/
def orQ (x d : ℚ) : ℚ := if x = 0 then d else x

/-- Node width: `data.width` when it is a number, else the `320` default
(the string-parsing and `style.width` fallbacks of the source are not
representable in the typed data model and also end at `320`). -/
def nodeWidthOf (n : LNode) : ℚ := (n.data.width).getD 320

/-- Node height heuristic of the source: `47 + columns.length * 28`. -/
def nodeHeightOf (n : LNode) : ℚ := 47 + (n.data.columns.length : ℚ) * 28

/-! ## `calculateXLayout` -/

/-- Options of `calculateXLayout` (the `offset` option is declared but
unused by the body). -/
structure XOptions where
  centerX : ℚ
  y : ℚ
deriving DecidableEq, Repr

/-- Defaults `{centerX = 400, y = -500}`. -/
def defaultXOptions : XOptions := { centerX := 400, y := -500 }

/-- The placement loop: each node sits at `xCursor + width/2`, and the cursor
advances by `width + singeNodeWidth`. -/
def placeXLoop (singeNodeWidth y : ℚ) : List LNode → ℚ → List LNode
  | [], _ => []
  | n :: rest, xCursor =>
      let width := orQ (nodeWidthOf n) 320
      { n with position := (xCursor + width / 2, y) }
        :: placeXLoop singeNodeWidth y rest (xCursor + width + singeNodeWidth)

/-- `calculateXLayout`: line nodes along the X axis at fixed `y`. -/
def calculateXLayout (nodes : List LNode) (o : XOptions) : List LNode :=
  if nodes.length = 0 then nodes else
  let nodeWidths := nodes.map nodeWidthOf
  let singeNodeWidth := nodeWidths.headD 320
  let totalWidth := singeNodeWidth * max 0 ((nodes.length : ℚ) - 1)
  let startX := o.centerX - totalWidth / 2
  placeXLoop singeNodeWidth o.y nodes startX

/-! ## `calculateYLayout` -/

/-- Options of `calculateYLayout`. -/
structure YOptions where
  offset : ℚ
  centerY : ℚ
  x : ℚ
deriving DecidableEq, Repr

/-- Defaults `{offset = 200, centerY = 300, x = 0}`. -/
def defaultYOptions : YOptions := { offset := 200, centerY := 300, x := 0 }

/-- The stacking loop: each node sits at `currentY`, which then advances by
the node's height (`|| 100`) plus the gap. -/
def placeYLoop (gap x : ℚ) : List LNode → ℚ → List LNode
  | [], _ => []
  | n :: rest, currentY =>
      let h := orQ (nodeHeightOf n) 100
      { n with position := (x, currentY) }
        :: placeYLoop gap x rest (currentY + h + gap)

/-- `calculateYLayout`: stack nodes along the Y axis at fixed `x`,
vertically centered on `centerY`. -/
def calculateYLayout (nodes : List LNode) (o : YOptions) : List LNode :=
  if nodes.length = 0 then nodes else
  let gap := max 0 o.offset
  let totalHeight := (nodes.map nodeHeightOf).foldl (fun s h => s + h) 0
      + gap * ((nodes.length : ℚ) - 1)
  placeYLoop gap o.x nodes (o.centerY - totalHeight / 2)

/-! ## `calculateHierarchicalLayout` -/

/-- A layout-side edge: the fields of a reactflow edge the layouts read. -/
structure LEdge where
  source : String
  target : String
deriving DecidableEq, Repr

/-- `outgoingEdges.get(id)`: targets of the edges with this source,
in edge order (the adjacency `Map` is built by a `forEach` push). -/
def outgoingOf (edges : List LEdge) (id : String) : List String :=
  (edges.filter (fun e => e.source == id)).map (fun e => e.target)

/-- `incomingEdges.get(id)`: sources of the edges with this target. -/
def incomingOf (edges : List LEdge) (id : String) : List String :=
  (edges.filter (fun e => e.target == id)).map (fun e => e.source)

/-- `hasOutgoing || hasIncoming` — the isolated/connected partition test. -/
def isConnectedNode (edges : List LEdge) (id : String) : Bool :=
  !(outgoingOf edges id).isEmpty || !(incomingOf edges id).isEmpty

/-- The mutable scratch state of the level assignment:
`connectedLevels`, `visited`, `visiting`. -/
structure LevelState where
  levels : List (String × Nat)
  visited : List String
  visiting : List String
deriving DecidableEq, Repr

/-- All three structures start empty. -/
def initLevelState : LevelState := ⟨[], [], []⟩

/-- The sequential `.map(parentId => assignLevel(parentId))` over the parent
list, threading the mutable state; `none` propagates fuel exhaustion. -/
def parentsFold (f : String → LevelState → Option (Nat × LevelState)) :
    List String → List Nat → LevelState → Option (List Nat × LevelState)
  | [], acc, st => some (acc, st)
  | p :: rest, acc, st =>
      match f p st with
      | none => none
      | some (l, st1) => parentsFold f rest (acc ++ [l]) st1

/-- `assignLevel`, fuel-indexed: the source recursion is
`visited ⇒ memoized level; visiting ⇒ 0 (cycle); otherwise mark visiting,
recurse over incoming parents, take max+1 (or 0 with no parents), then
unmark/memoize`.  `none` means the fuel bound was hit; the termination
theorem shows `hierFuel` never hits it. -/
def assignLevelF (inc : String → List String) :
    Nat → String → LevelState → Option (Nat × LevelState)
  | 0, _, _ => none
  | fuel + 1, nodeId, st =>
      if st.visited.contains nodeId then
        some ((st.levels.lookup nodeId).getD 0, st)
      else if st.visiting.contains nodeId then
        some (0, st)
      else
        let st1 : LevelState := { st with visiting := nodeId :: st.visiting }
        match parentsFold (fun p s => assignLevelF inc fuel p s) (inc nodeId) [] st1 with
        | none => none
        | some (parentLevels, st2) =>
            let level := if parentLevels.length > 0
              then parentLevels.foldr max 0 + 1 else 0
            some (level,
              { levels := (nodeId, level) :: st2.levels
              , visited := nodeId :: st2.visited
              , visiting := st2.visiting.erase nodeId })

/-- Every id the recursion can ever touch: node ids plus edge endpoints. -/
def hierUniv (nodes : List LNode) (edges : List LEdge) : List String :=
  nodes.map (fun n => n.id) ++ edges.map (fun e => e.source)
    ++ edges.map (fun e => e.target)

/-- Fuel that the termination theorem proves sufficient. -/
def hierFuel (nodes : List LNode) (edges : List LEdge) : Nat :=
  (hierUniv nodes edges).length + 1

/-- `connectedNodes.forEach(node => assignLevel(node.id))`. -/
def runLevels (inc : String → List String) (fuel : Nat)
    (conn : List LNode) : LevelState :=
  conn.foldl (fun st n =>
    match assignLevelF inc fuel n.id st with
    | some r => r.2
    | none => st) initLevelState

/-- Append a node to its level's bucket, or open a new bucket at the end —
insertion-ordered grouping, like a JS `Map` built by pushes. -/
def insertGroup (g : List (Nat × List LNode)) (lvl : Nat) (n : LNode) :
    List (Nat × List LNode) :=
  match g with
  | [] => [(lvl, [n])]
  | (l, ns) :: rest =>
      if l = lvl then (l, ns ++ [n]) :: rest
      else (l, ns) :: insertGroup rest lvl n

/-- `connectedNodesByLevel` grouping. -/
def groupByLevel (conn : List LNode) (lvlOf : String → Nat) :
    List (Nat × List LNode) :=
  conn.foldl (fun g n => insertGroup g (lvlOf n.id) n) []

/-- `positionedNodes[findIndex(n => n.id === id)] = {...old, position}` —
replace the first node with this id, keeping data. -/
def setPosById : List LNode → String → ℚ × ℚ → List LNode
  | [], _, _ => []
  | n :: rest, i, p =>
      if n.id = i then { n with position := p } :: rest
      else n :: setPosById rest i p

/-- Options of `calculateHierarchicalLayout` (`direction` is read but
unused; `centerY` is destructured but unused by the body). -/
structure HierOptions where
  nodeSpacing : ℚ
  levelSpacing : ℚ
  centerX : ℚ
  centerY : ℚ
  isolatedNodesPerRow : Nat
  isolatedNodeSpacing : ℚ
  isolatedRowSpacing : ℚ
deriving DecidableEq, Repr

/-- The defaults (`isolatedNodeSpacing` defaults to `nodeSpacing`). -/
def defaultHierOptions : HierOptions :=
  { nodeSpacing := 200, levelSpacing := 150, centerX := 400, centerY := 300
  , isolatedNodesPerRow := 5, isolatedNodeSpacing := 200
  , isolatedRowSpacing := 120 }

/-- `const connectedStartY = 200`. -/
def connectedStartY : ℚ := 200

/-- Position the connected nodes level row by level row:
`x = startX + index*nodeSpacing`, `y = 200 + level*levelSpacing`. -/
def placeConnectedLevels (o : HierOptions) (groups : List (Nat × List LNode))
    (ps : List LNode) : List LNode :=
  groups.foldl (fun ps g =>
    let levelWidth := ((g.2.length : ℚ) - 1) * o.nodeSpacing
    let startX := o.centerX - levelWidth / 2
    g.2.enum.foldl (fun ps idxn =>
      setPosById ps idxn.2.id
        (startX + (idxn.1 : ℚ) * o.nodeSpacing,
         connectedStartY + (g.1 : ℚ) * o.levelSpacing)) ps) ps

/-- Row start x for isolated row `row`:
`centerX - ((min(perRow, count - row*perRow) - 1) * spacing) / 2`. -/
def isoRowStartX (o : HierOptions) (isoCount row : Nat) : ℚ :=
  o.centerX -
    (((min o.isolatedNodesPerRow (isoCount - row * o.isolatedNodesPerRow) : Nat) : ℚ) - 1)
      * o.isolatedNodeSpacing / 2

/-- The isolated-node placement loop with its mutable `currentY`/`currentX`:
on each row boundary (`col = 0 ∧ row > 0`) `currentY` grows by
`isolatedRowSpacing` and `currentX` resets for the new row. -/
def placeIsolatedLoop (o : HierOptions) (isoCount : Nat) :
    List (Nat × LNode) → ℚ → ℚ → List LNode → List LNode
  | [], _, _, ps => ps
  | (index, node) :: rest, currentY, currentX, ps =>
      let row := index / o.isolatedNodesPerRow
      let col := index % o.isolatedNodesPerRow
      let currentY := if col = 0 ∧ 0 < row
        then currentY + o.isolatedRowSpacing else currentY
      let currentX := if col = 0 ∧ 0 < row
        then isoRowStartX o isoCount row else currentX
      placeIsolatedLoop o isoCount rest currentY currentX
        (setPosById ps node.id
          (currentX + (col : ℚ) * o.isolatedNodeSpacing, currentY))

/-- `calculateHierarchicalLayout`. -/
def calculateHierarchicalLayout (nodes : List LNode) (edges : List LEdge)
    (o : HierOptions) : List LNode :=
  if nodes.length = 0 then nodes else
  let inc := incomingOf edges
  let connectedNodes := nodes.filter (fun n => isConnectedNode edges n.id)
  let isolatedNodes := nodes.filter (fun n => !(isConnectedNode edges n.id))
  let positionedNodes := nodes.map (fun n => n)
  let st := runLevels inc (hierFuel nodes edges) connectedNodes
  let groups := groupByLevel connectedNodes (fun id => (st.levels.lookup id).getD 0)
  let ps1 := placeConnectedLevels o groups positionedNodes
  let isolatedStartY := connectedStartY - o.levelSpacing
  let initX := isoRowStartX o isolatedNodes.length 0
  placeIsolatedLoop o isolatedNodes.length isolatedNodes.enum
    isolatedStartY initX ps1

/-! ## Specification-side helpers for the hierarchical layout

These do not model source code; they are the vocabulary in which the
behaviour of `calculateHierarchicalLayout` is characterized. -/

/-- Apply a list of `(id, position)` updates left to right. -/
def applyPairs (pairs : List (String × (ℚ × ℚ))) (ps : List LNode) : List LNode :=
  pairs.foldl (fun a pr => setPosById a pr.1 pr.2) ps

/-- The `(id, position)` updates performed for one level row. -/
def connRowPairs (o : HierOptions) (g : Nat × List LNode) :
    List (String × (ℚ × ℚ)) :=
  g.2.enum.map (fun idxn =>
    (idxn.2.id,
      (o.centerX - ((g.2.length : ℚ) - 1) * o.nodeSpacing / 2
          + (idxn.1 : ℚ) * o.nodeSpacing,
       connectedStartY + (g.1 : ℚ) * o.levelSpacing)))

/-- All `(id, position)` updates of the connected-placement pass. -/
def connPairs (o : HierOptions) (groups : List (Nat × List LNode)) :
    List (String × (ℚ × ℚ)) :=
  groups.flatMap (connRowPairs o)

/-- The `(id, position)` updates of the isolated-placement loop, for an
enumerated suffix. -/
def isoPairsOf (o : HierOptions) (isoCount : Nat) (l : List (Nat × LNode)) :
    List (String × (ℚ × ℚ)) :=
  l.map (fun idxn =>
    (idxn.2.id,
      (isoRowStartX o isoCount (idxn.1 / o.isolatedNodesPerRow)
          + ((idxn.1 % o.isolatedNodesPerRow : Nat) : ℚ) * o.isolatedNodeSpacing,
       (connectedStartY - o.levelSpacing)
          + ((idxn.1 / o.isolatedNodesPerRow : Nat) : ℚ) * o.isolatedRowSpacing)))

/-- The level recorded for `id` by the `forEach assignLevel` pass
(`connectedLevels.get(id) || 0`). -/
def lvlOfRun (nodes : List LNode) (edges : List LEdge) (id : String) : Nat :=
  (((runLevels (incomingOf edges) (hierFuel nodes edges)
      (nodes.filter (fun n => isConnectedNode edges n.id))).levels).lookup id).getD 0

/-- The position of node index `k` within the isolated subsequence:
how many isolated nodes precede it. -/
def isoIndexAt (nodes : List LNode) (edges : List LEdge) (k : Nat) : Nat :=
  (nodes.take k).countP (fun n => !(isConnectedNode edges n.id))

/-- Specification-side frame predicate: `ps` has the same length as
`nodes` and, at every index, the same `id` and `data` (only `position` may
differ). -/
def FrameOK (nodes ps : List LNode) : Prop :=
  ps.length = nodes.length ∧
  ∀ k : Nat, (ps.getD k dummyNode).id = (nodes.getD k dummyNode).id ∧
    (ps.getD k dummyNode).data = (nodes.getD k dummyNode).data

/-! ## Concrete inputs used by witnesses and counterexamples -/

/-- A node with no columns and no width hint (so width defaults to 320). -/
def plainNode (nm : String) : LNode :=
  { id := nm, data := { name := nm, columns := [], width := none }, position := (0, 0) }

/-- A node with `k` identical columns (height `47 + 28k`). -/
def colNode (nm : String) (k : Nat) : LNode :=
  { id := nm
  , data := { name := nm
            , columns := List.replicate k
                { name := "c", dataType := "int", isPrimaryKey := false
                , notNull := false, unique := false, foreignTo := none }
            , width := none }
  , position := (0, 0) }

/-- A column holding a foreign key to `ft.id`. -/
def colFK (nm ft : String) : Column :=
  { name := nm, dataType := "int", isPrimaryKey := false, notNull := false
  , unique := false, foreignTo := some { name := ft, column := "id" } }

/-- Table `A` referencing `B` (half of a bidirectional FK pair). -/
def tableA : Table :=
  { name := "A", columns := [colFK "b_ref" "B"], position := none, width := none }

/-- Table `B` referencing `A` (the other half). -/
def tableB : Table :=
  { name := "B", columns := [colFK "a_ref" "A"], position := none, width := none }

/-- The edge synthesized from `tableA`'s foreign key. -/
def edgeBA : REdge :=
  { id := "reactflow__B_id_right_A_b_ref_left_gen"
  , source := "B", sourceHandle := "B_id_right"
  , target := "A", targetHandle := "A_b_ref_left", etype := "custom" }

/-- A table whose foreign key references a nonexistent table `X`
(dangling edge). -/
def cexC2Table : Table :=
  { name := "B", columns := [colFK "c" "X"], position := none, width := none }

/-- The dangling edge synthesized from `cexC2Table`. -/
def cexC2Edge : REdge :=
  { id := "reactflow__X_id_right_B_c_left_gen"
  , source := "X", sourceHandle := "X_id_right"
  , target := "B", targetHandle := "B_c_left", etype := "custom" }

/-- A concrete edge used by the C10 witness. -/
def cexC10Edge : REdge :=
  { id := "reactflow__A_k_right_B_c_left_gen"
  , source := "A", sourceHandle := "A_k_right"
  , target := "B", targetHandle := "B_c_left", etype := "custom" }

/-- Names of eleven isolated nodes for the C1 counterexample. -/
def isoNames : List String :=
  ["I0", "I1", "I2", "I3", "I4", "I5", "I6", "I7", "I8", "I9", "I10"]

/-- C1 counterexample graph: connected pair `A -> B` plus eleven isolated
nodes (three isolated rows under the default options). -/
def cexC1Nodes : List LNode :=
  plainNode "A" :: plainNode "B" :: isoNames.map plainNode

/-- The single edge of the C1 counterexample graph. -/
def cexC1Edges : List LEdge := [{ source := "A", target := "B" }]

/-- A small graph satisfying the amended C1 hypotheses: `A -> B` connected,
`C` isolated. -/
def abcNodes : List LNode :=
  [plainNode "A", plainNode "B", plainNode "C"]

/-- A two-cycle graph for the C7 witness. -/
def cycleNodes : List LNode := [plainNode "A", plainNode "B"]

/-- Edges `A -> B` and `B -> A` (a cycle). -/
def cycleEdges : List LEdge :=
  [{ source := "A", target := "B" }, { source := "B", target := "A" }]

/-! ## `calculateBoxLayout` -/

/-- Options of `calculateBoxLayout`. -/
structure BoxOptions where
  offsetX : ℚ
  offsetY : ℚ
  centerX : ℚ
  centerY : ℚ
  compact : Bool
deriving DecidableEq, Repr

/-- Defaults `{offsetX = 200, offsetY = 150, centerX = 400, centerY = 300,
compact = false}`. -/
def defaultBoxOptions : BoxOptions :=
  { offsetX := 200, offsetY := 150, centerX := 400, centerY := 300
  , compact := false }

/-- `cols = Math.ceil(Math.sqrt(n))`. -/
def boxCols (n : Nat) : Nat :=
  let s := Nat.sqrt n
  if s * s = n then s else s + 1

/-- The non-compact inner loop: place the row's nodes left to right at
`(xCursor, rowStartY)`, advancing by width + `offsetX`; each assignment
`positioned[nodeIdx] = {...nodes[nodeIdx], position}` is a `set` of the
node read from the input array. -/
def boxPlaceRow (nodes : List LNode) (o : BoxOptions) (widths : List ℚ)
    (rowStartY : ℚ) : List Nat → ℚ → List LNode → List LNode
  | [], _, ps => ps
  | i :: rest, xCursor, ps =>
      let w := widths.getD i 0
      boxPlaceRow nodes o widths rowStartY rest (xCursor + w + o.offsetX)
        (ps.set i { nodes.getD i dummyNode with position := (xCursor, rowStartY) })

/-- The non-compact outer loop over `(row indices, row max height)` pairs,
threading `accumulatedY`. -/
def boxRowsLoop (nodes : List LNode) (o : BoxOptions) (widths : List ℚ)
    (startY : ℚ) : List (List Nat × ℚ) → ℚ → List LNode → List LNode
  | [], _, ps => ps
  | (indices, maxH) :: rest, accumulatedY, ps =>
      let widthsRow := indices.map (fun i => widths.getD i 0)
      let sumWidths := widthsRow.foldl (fun s w => s + w) 0
      let rowWidth := sumWidths + (max 0 ((indices.length : ℚ) - 1)) * o.offsetX
      let rowStartX := o.centerX - rowWidth / 2
      let rowStartY := startY + accumulatedY
      boxRowsLoop nodes o widths startY rest (accumulatedY + maxH + o.offsetY)
        (boxPlaceRow nodes o widths rowStartY indices rowStartX ps)

/-- The compact inner loop: y comes from the per-column accumulator, which
then grows by the node's height + `offsetY`. -/
def boxCompactRow (nodes : List LNode) (o : BoxOptions)
    (widths heights : List ℚ) (cols : Nat) (compactStartY : ℚ) :
    List Nat → ℚ → List ℚ → List LNode → (List ℚ × List LNode)
  | [], _, colAcc, ps => (colAcc, ps)
  | i :: rest, xCursor, colAcc, ps =>
      let w := widths.getD i 0
      let col := i % cols
      let y := compactStartY + colAcc.getD col 0
      let ps1 := ps.set i { nodes.getD i dummyNode with position := (xCursor, y) }
      let colAcc1 := colAcc.set col
        (colAcc.getD col 0 + heights.getD i 0 + o.offsetY)
      boxCompactRow nodes o widths heights cols compactStartY rest
        (xCursor + w + o.offsetX) colAcc1 ps1

/-- The compact outer loop over rows. -/
def boxCompactRows (nodes : List LNode) (o : BoxOptions)
    (widths heights : List ℚ) (cols : Nat) (compactStartY : ℚ) :
    List (List Nat) → List ℚ → List LNode → List LNode
  | [], _, ps => ps
  | indices :: rest, colAcc, ps =>
      let widthsRow := indices.map (fun i => widths.getD i 0)
      let sumWidths := widthsRow.foldl (fun s w => s + w) 0
      let rowWidth := sumWidths + (max 0 ((indices.length : ℚ) - 1)) * o.offsetX
      let rowStartX := o.centerX - rowWidth / 2
      let r := boxCompactRow nodes o widths heights cols compactStartY
        indices rowStartX colAcc ps
      boxCompactRows nodes o widths heights cols compactStartY rest r.1 r.2

/-- `calculateBoxLayout`.  The JS builds `positioned` as a sparse array
assigned at every index `0..n-1` (the row ranges cover `[0, n)`); it is
modelled as successive `set`s starting from the input list. -/
def calculateBoxLayout (nodes : List LNode) (o : BoxOptions) : List LNode :=
  if nodes.length = 0 then nodes else
  let n := nodes.length
  let cols := boxCols n
  let rows := (n + cols - 1) / cols
  let nodeHeights := nodes.map nodeHeightOf
  let nodeWidths := nodes.map nodeWidthOf
  let rowsIndices := (List.range rows).map (fun r =>
    List.range' (r * cols) (min (r * cols + cols) n - r * cols))
  let rowMaxHeights := rowsIndices.map (fun idxs =>
    idxs.foldl (fun m i => max m (nodeHeights.getD i 0)) 0)
  let totalHeight := rowMaxHeights.foldl (fun s h => s + h) 0
    + o.offsetY * max 0 ((rows : ℚ) - 1)
  let startY := o.centerY - totalHeight / 2
  if !o.compact then
    boxRowsLoop nodes o nodeWidths startY (rowsIndices.zip rowMaxHeights) 0 nodes
  else
    let colCounts := (List.range n).foldl (fun acc i =>
      acc.set (i % cols) (acc.getD (i % cols) 0 + 1))
      (List.replicate cols (0 : Nat))
    let colHeights := (List.range n).foldl (fun acc i =>
      acc.set (i % cols) (acc.getD (i % cols) 0 + nodeHeights.getD i 0))
      (List.replicate cols (0 : ℚ))
    let colTotals := (colHeights.zip colCounts).map (fun hc =>
      if hc.2 > 0 then hc.1 + o.offsetY * max 0 ((hc.2 : ℚ) - 1) else 0)
    let maxColHeight := colTotals.foldl max 0
    let compactStartY := o.centerY - maxColHeight / 2
    boxCompactRows nodes o nodeWidths nodeHeights cols compactStartY
      rowsIndices (List.replicate cols 0) nodes

/-! ## Real-valued layouts: circular and force-directed

`Math.sqrt`/`Math.cos`/`Math.sin` are modelled over `ℝ`, so these
definitions are noncomputable; concrete facts about them are established
by `simp`/`norm_num` instead of kernel evaluation. -/

noncomputable section RealLayouts
open Classical

/-- A node as consumed by the real-valued layouts: only `id` and
`position` are read or written, but the `data` payload is carried along
because the source's `{...node, position}` spreads preserve it. -/
structure RNode where
  id : String
  data : NodeData
  position : ℝ × ℝ

/-- An empty data payload named after a node. -/
def mkData (nm : String) : NodeData :=
  { name := nm, columns := [], width := none }

/-- A default real node for `getD`-style indexing in statements. -/
def dummyRNode : RNode := { id := "", data := mkData "", position := (0, 0) }

instance : Inhabited RNode := ⟨dummyRNode⟩

/-- A real node at the origin (the input position is irrelevant: both
real-valued layouts overwrite it). -/
def rnode (nm : String) : RNode :=
  { id := nm, data := mkData nm, position := (0, 0) }

/-- Options of `calculateCircularLayout`. -/
structure CircOptions where
  radius : ℝ
  centerX : ℝ
  centerY : ℝ

/-- Defaults `{radius = 100, centerX = 400, centerY = 300}`. -/
def defaultCircOptions : CircOptions :=
  { radius := 100, centerX := 400, centerY := 300 }

/-- `calculateCircularLayout`: place node `index` at angle
`index * 2π/n - π/2` on the circle of `radius` around the center. -/
def calculateCircularLayout (nodes : List RNode) (o : CircOptions) :
    List RNode :=
  if nodes.length = 0 then nodes else
  let angleStep := (2 * Real.pi) / (nodes.length : ℝ)
  nodes.enum.map (fun idxn =>
    let angle := (idxn.1 : ℝ) * angleStep - Real.pi / 2
    { idxn.2 with position := (o.centerX + o.radius * Real.cos angle,
                               o.centerY + o.radius * Real.sin angle) })

/-! ### `calculateForceDirectedLayout` -/

/-- A node carrying the transient velocity used inside the force loop; the
`data` payload rides along through `{...node, position, velocity}`. -/
structure FNode where
  id : String
  data : NodeData
  position : ℝ × ℝ
  velocity : ℝ × ℝ

/-- Options of `calculateForceDirectedLayout`. -/
structure ForceOptions where
  iterations : Nat
  repulsionForce : ℝ
  attractionForce : ℝ
  minDistance : ℝ
  repulsionMultiplier : ℝ
  damping : ℝ
  centerX : ℝ
  centerY : ℝ

/-- The source defaults. -/
def defaultForceOptions : ForceOptions :=
  { iterations := 50, repulsionForce := 1000, attractionForce := 0.1
  , minDistance := 150, repulsionMultiplier := 1, damping := 0.9
  , centerX := 400, centerY := 300 }

/-- JS `x || d` over the reals (`0` falls through to the default). -/
def orR (x d : ℝ) : ℝ := if x = 0 then d else x

/-- The index pairs `(i, j)` with `i < j < n` in the order visited by the
source's double loops. -/
def pairIndices (n : Nat) : List (Nat × Nat) :=
  (List.range n).flatMap (fun i =>
    (List.range (n - i - 1)).map (fun k => (i, i + k + 1)))

/-- One repulsion update: inverse-square force along the separating vector,
distance floored via `|| 0.0001`; equal and opposite velocity deltas. -/
def applyRepulsion (o : ForceOptions) (ns : List FNode) (ij : Nat × Nat) :
    List FNode :=
  match ns.get? ij.1, ns.get? ij.2 with
  | some nodeA, some nodeB =>
      let dx := nodeB.position.1 - nodeA.position.1
      let dy := nodeB.position.2 - nodeA.position.2
      let rawDist := Real.sqrt (dx * dx + dy * dy)
      let distance := orR rawDist 0.0001
      let effectiveRepulsion := o.repulsionForce * (orR o.repulsionMultiplier 1)
      let force := effectiveRepulsion / (distance * distance)
      let fx := dx / distance * force
      let fy := dy / distance * force
      (ns.set ij.1 { nodeA with velocity :=
          (nodeA.velocity.1 - fx, nodeA.velocity.2 - fy) }).set ij.2
        { nodeB with velocity :=
          (nodeB.velocity.1 + fx, nodeB.velocity.2 + fy) }
  | _, _ => ns

/-- The repulsion double loop. -/
def repulsionPass (o : ForceOptions) (ns : List FNode) : List FNode :=
  (pairIndices ns.length).foldl (applyRepulsion o) ns

/-- The write-back to `targetNode.velocity`: in the source this mutates the
object found by `find`, i.e. the current entry at the target's index after
the source entry was updated. -/
def updateTargetVelocity (ns1 : List FNode) (ti : Nat) (fx fy : ℝ) :
    List FNode :=
  match ns1.get? ti with
  | some tnode => ns1.set ti { tnode with velocity :=
      (tnode.velocity.1 - fx, tnode.velocity.2 - fy) }
  | none => ns1

/-- One attraction update for an edge: Hooke force `attractionForce * d`
pulling the endpoints together (distance floored via `|| 1`); the target's
velocity is updated after the source's, reading the current array. -/
def applyAttraction (o : ForceOptions) (ns : List FNode) (e : LEdge) :
    List FNode :=
  match ns.findIdx? (fun n => n.id == e.source),
      ns.findIdx? (fun n => n.id == e.target) with
  | some si, some ti =>
      match ns.get? si, ns.get? ti with
      | some sourceNode, some targetNode =>
          let dx := targetNode.position.1 - sourceNode.position.1
          let dy := targetNode.position.2 - sourceNode.position.2
          let distance := orR (Real.sqrt (dx * dx + dy * dy)) 1
          let force := o.attractionForce * distance
          let fx := dx / distance * force
          let fy := dy / distance * force
          updateTargetVelocity (ns.set si { sourceNode with velocity :=
            (sourceNode.velocity.1 + fx, sourceNode.velocity.2 + fy) }) ti fx fy
      | _, _ => ns
  | _, _ => ns

/-- The attraction pass over all edges. -/
def attractionPass (o : ForceOptions) (edges : List LEdge)
    (ns : List FNode) : List FNode :=
  edges.foldl (applyAttraction o) ns

/-- One hard collision-resolution update: a pair closer than
`minDistance * (repulsionMultiplier || 1)` is pushed directly apart by half
the overlap each, as a position correction. -/
def applyCollision (o : ForceOptions) (ns : List FNode) (ij : Nat × Nat) :
    List FNode :=
  match ns.get? ij.1, ns.get? ij.2 with
  | some nodeA, some nodeB =>
      let dx := nodeB.position.1 - nodeA.position.1
      let dy := nodeB.position.2 - nodeA.position.2
      let dist := orR (Real.sqrt (dx * dx + dy * dy)) 0.0001
      let effectiveMinDist := o.minDistance * (orR o.repulsionMultiplier 1)
      if dist < effectiveMinDist then
        let overlap := effectiveMinDist - dist
        let nx := dx / dist
        let ny := dy / dist
        (ns.set ij.1 { nodeA with position :=
            (nodeA.position.1 - nx * (overlap / 2),
             nodeA.position.2 - ny * (overlap / 2)) }).set ij.2
          { nodeB with position :=
            (nodeB.position.1 + nx * (overlap / 2),
             nodeB.position.2 + ny * (overlap / 2)) }
      else ns
  | _, _ => ns

/-- The collision-resolution double loop. -/
def collisionPass (o : ForceOptions) (ns : List FNode) : List FNode :=
  (pairIndices ns.length).foldl (applyCollision o) ns

/-- Damping, constant centering pull (`0.01`), and explicit Euler
integration of velocity into position. -/
def dampingPass (o : ForceOptions) (ns : List FNode) : List FNode :=
  ns.map (fun node =>
    let v1 := (node.velocity.1 * o.damping, node.velocity.2 * o.damping)
    let v2 := (v1.1 + (o.centerX - node.position.1) * 0.01,
               v1.2 + (o.centerY - node.position.2) * 0.01)
    { node with
        velocity := v2
        position := (node.position.1 + v2.1, node.position.2 + v2.2) })

/-- One iteration of the force loop: repulsion, attraction, collision
resolution, then damping/centering/integration — in the source's order. -/
def forceStep (o : ForceOptions) (edges : List LEdge) (ns : List FNode) :
    List FNode :=
  dampingPass o (collisionPass o (attractionPass o edges (repulsionPass o ns)))

/-- `iterations` applications of `forceStep`. -/
def runIterations (o : ForceOptions) (edges : List LEdge) :
    Nat → List FNode → List FNode
  | 0, ns => ns
  | k + 1, ns => runIterations o edges k (forceStep o edges ns)

/-- `calculateForceDirectedLayout`, with the random initialization injected
as an input `rand : Nat → ℝ × ℝ` (the two `Math.random()` draws of node
`i`, each meant to lie in `[0, 1)`): every node starts at
`center + (draw − 0.5)·400` with zero velocity, the loop runs `iterations`
times, and the transient velocity is stripped from the result. -/
def calculateForceDirectedLayout (nodes : List RNode) (edges : List LEdge)
    (o : ForceOptions) (rand : Nat → ℝ × ℝ) : List RNode :=
  if nodes.length = 0 then nodes else
  let init := nodes.enum.map (fun idxn =>
    { id := idxn.2.id
    , data := idxn.2.data
    , position := (o.centerX + ((rand idxn.1).1 - 0.5) * 400,
                   o.centerY + ((rand idxn.1).2 - 0.5) * 400)
    , velocity := ((0:ℝ), (0:ℝ)) : FNode })
  (runIterations o edges o.iterations init).map (fun f =>
    { id := f.id, data := f.data, position := f.position : RNode })

/-- Euclidean distance between two points, as in the claims. -/
def euclDist (a b : ℝ × ℝ) : ℝ :=
  Real.sqrt ((b.1 - a.1) ^ 2 + (b.2 - a.2) ^ 2)

/-- A default force node for `getD`-style indexing in statements. -/
def dummyFNode : FNode :=
  { id := "", data := mkData "", position := (0, 0), velocity := (0, 0) }

instance : Inhabited FNode := ⟨dummyFNode⟩

/-- The options of the C3 counterexample: defaults with one iteration. -/
def cexForceOptions : ForceOptions :=
  { iterations := 1, repulsionForce := 1000, attractionForce := 0.1
  , minDistance := 150, repulsionMultiplier := 1, damping := 0.9
  , centerX := 400, centerY := 300 }

/-- The injected random draws of the C3 counterexample: node 0 starts at
`(350, 300)`, node 1 at `(450, 300)` (all draws within `[0, 1)`). -/
def cexForceRand : Nat → ℝ × ℝ :=
  fun i => if i = 0 then (3/8, 1/2) else (5/8, 1/2)

end RealLayouts

/-! ## Pipeline lemmas -/

theorem lookup_bumpCount_self (m : List (String × Nat)) (k : String) :
    (bumpCount m k).lookup k = some (((m.lookup k).getD 0) + 1) := by
  induction m with
  | nil => simp [bumpCount]
  | cons hd tl ih =>
      obtain ⟨k0, c⟩ := hd
      by_cases h : k0 = k
      · subst h; simp [bumpCount]
      · simp [bumpCount, h, List.lookup_cons, beq_false_of_ne (Ne.symm h), ih]

theorem lookup_bumpCount_ne (m : List (String × Nat)) (k k' : String)
    (h : k' ≠ k) : (bumpCount m k).lookup k' = m.lookup k' := by
  induction m with
  | nil => simp [bumpCount, List.lookup_cons, beq_false_of_ne h]
  | cons hd tl ih =>
      obtain ⟨k0, c⟩ := hd
      by_cases h0 : k0 = k
      · subst h0
        simp [bumpCount, List.lookup_cons, beq_false_of_ne h]
      · simp only [bumpCount, if_neg h0, List.lookup_cons, ih]

theorem lookup_foldl_bump (es : List REdge) (m : List (String × Nat))
    (k : String) :
    (es.foldl (fun m e => bumpCount m (pairKey e)) m).lookup k =
      if es.countP (fun e => pairKey e = k) = 0 then m.lookup k
      else some ((m.lookup k).getD 0 + es.countP (fun e => pairKey e = k)) := by
  induction es generalizing m with
  | nil => simp
  | cons e rest ih =>
      simp only [List.foldl_cons, List.countP_cons, ih]
      by_cases h : pairKey e = k
      · subst h
        simp only [decide_True, if_true, lookup_bumpCount_self]
        by_cases h0 : rest.countP (fun x => pairKey x = pairKey e) = 0
        · simp [h0]
        · have h1 : ¬ (rest.countP (fun x => pairKey x = pairKey e) + 1 = 0) := by
            omega
          rw [if_neg h0, if_neg h1]
          simp only [Option.getD_some, Option.some.injEq]
          omega
      · have hb : (decide (pairKey e = k)) = false := by simp [h]
        rw [lookup_bumpCount_ne _ _ _ (fun hh => h hh.symm)]
        simp [hb]

/-- For an edge of the list itself, the count map is defined and holds its
pair count, which is at least 1. -/
theorem lookup_buildCountMap (es : List REdge) (e : REdge) (he : e ∈ es) :
    (buildCountMap es).lookup (pairKey e) = some (pairCount es e) ∧
      1 ≤ pairCount es e := by
  have hpos : 0 < es.countP (fun x => pairKey x = pairKey e) :=
    List.countP_pos_iff.mpr ⟨e, he, by simp⟩
  constructor
  · rw [buildCountMap, lookup_foldl_bump]
    simp only [pairCount]
    rw [if_neg (by omega)]
    simp
  · exact hpos

/-! ## Theorems for the claims on the extraction pipeline -/

/-- C10: the `=== 2 || === 0` edge filter coincides with the plain `=== 2`
filter (the `exactly 0` branch is unreachable because every edge of the
filtered list contributes 1 to its own pair count), and any unordered pair
joined by exactly one edge has that edge removed. -/
theorem edgeFilter_zero_branch_unreachable (es : List REdge) :
    filterEdgesStep es = filterEdgesPairOfTwo es ∧
    (∀ e ∈ filterEdgesStep es, 1 ≤ pairCount es e) ∧
    (∀ e ∈ es, pairCount es e = 1 → e ∉ filterEdgesStep es) := by
  have hpred : ∀ e ∈ es,
      ((((buildCountMap es).lookup (pairKey e)) == some 2) ||
        (((buildCountMap es).lookup (pairKey e)) == some 0))
        = (pairCount es e == 2) := by
    intro e he
    obtain ⟨hl, hc⟩ := lookup_buildCountMap es e he
    rw [hl]
    have h0 : ((some (pairCount es e) == some (0 : Nat))) = false := by
      simp; omega
    simp [h0]
  have heq : filterEdgesStep es = filterEdgesPairOfTwo es := by
    unfold filterEdgesStep filterEdgesPairOfTwo
    exact List.filter_congr hpred
  refine ⟨heq, ?_, ?_⟩
  · intro e he
    rw [heq] at he
    have := (List.mem_filter.mp he).1
    exact (lookup_buildCountMap es e this).2
  · intro e he h1 hmem
    rw [heq] at hmem
    have := (List.mem_filter.mp hmem).2
    simp [h1] at this

/-- Witness for C10's theorem at a concrete edge list: a single edge between
`A` and `B` (pair count 1) is removed by the filter. -/
theorem edgeFilter_zero_branch_unreachable_witness :
    (cexC10Edge ∈ [cexC10Edge] ∧ pairCount [cexC10Edge] cexC10Edge = 1) ∧
      cexC10Edge ∉ filterEdgesStep [cexC10Edge] :=
  ⟨⟨by decide, by decide⟩,
    (edgeFilter_zero_branch_unreachable [cexC10Edge]).2.2 cexC10Edge
      (by decide) (by decide)⟩

/-- C2, counterexample: for a synthesized edge that is dropped by the
dangling-edge prune, the pair count among surviving edges is 0, yet the edge
does not appear in the returned list — the claimed iff fails. -/
theorem synthesizedEdge_filter_iff_fails :
    cexC2Edge ∈ synthesizedEdges [cexC2Table] ∧
    ¬ (cexC2Edge ∈ (inputDataToNodeAndEdges [cexC2Table]).edges ↔
       (pairCount (survivingEdges [cexC2Table]) cexC2Edge = 2 ∨
        pairCount (survivingEdges [cexC2Table]) cexC2Edge = 0)) := by
  decide

/-- C2, amended: restricted to edges that survive the dangling-edge prune,
an edge appears in the returned list iff its pair count among surviving
edges is exactly 2 or exactly 0. -/
theorem survivingEdge_filter_iff (ts : List Table) (e : REdge)
    (he : e ∈ survivingEdges ts) :
    e ∈ (inputDataToNodeAndEdges ts).edges ↔
      (pairCount (survivingEdges ts) e = 2 ∨
        pairCount (survivingEdges ts) e = 0) := by
  obtain ⟨hl, hc⟩ := lookup_buildCountMap (survivingEdges ts) e he
  show e ∈ filterEdgesStep (survivingEdges ts) ↔ _
  unfold filterEdgesStep
  simp [List.mem_filter, he, hl]

/-- Witness for the amended C2 at a bidirectional FK pair: both edges
survive and their pair count is 2, so membership holds. -/
theorem survivingEdge_filter_iff_witness :
    edgeBA ∈ survivingEdges [tableA, tableB] ∧
      (edgeBA ∈ (inputDataToNodeAndEdges [tableA, tableB]).edges ↔
        (pairCount (survivingEdges [tableA, tableB]) edgeBA = 2 ∨
          pairCount (survivingEdges [tableA, tableB]) edgeBA = 0)) :=
  ⟨by decide, survivingEdge_filter_iff [tableA, tableB] edgeBA (by decide)⟩

/-- C6: every edge returned by `inputDataToNodeAndEdges` has its source and
target among the ids of the returned nodes (dangling edges are dropped). -/
theorem returned_edges_endpoints_exist (ts : List Table) (e : REdge)
    (he : e ∈ (inputDataToNodeAndEdges ts).edges) :
    (∃ n ∈ (inputDataToNodeAndEdges ts).nodes, n.id = e.source) ∧
    (∃ n ∈ (inputDataToNodeAndEdges ts).nodes, n.id = e.target) := by
  have h1 : e ∈ survivingEdges ts := (List.mem_filter.mp he).1
  have h2 := (List.mem_filter.mp h1).2
  simp only [Bool.and_eq_true, List.any_eq_true, beq_iff_eq] at h2
  obtain ⟨⟨ns, hns, hs⟩, ⟨nt, hnt, ht⟩⟩ := h2
  exact ⟨⟨ns, hns, hs⟩, ⟨nt, hnt, ht⟩⟩

/-- Witness for C6 at the bidirectional FK pair. -/
theorem returned_edges_endpoints_exist_witness :
    edgeBA ∈ (inputDataToNodeAndEdges [tableA, tableB]).edges ∧
    ((∃ n ∈ (inputDataToNodeAndEdges [tableA, tableB]).nodes, n.id = edgeBA.source) ∧
     (∃ n ∈ (inputDataToNodeAndEdges [tableA, tableB]).nodes, n.id = edgeBA.target)) :=
  ⟨by decide, returned_edges_endpoints_exist [tableA, tableB] edgeBA (by decide)⟩


/-! ## X/Y layout lemmas -/

theorem nodeHeightOf_pos (n : LNode) : 0 < nodeHeightOf n := by
  unfold nodeHeightOf
  positivity

theorem orQ_nodeHeight (n : LNode) : orQ (nodeHeightOf n) 100 = nodeHeightOf n := by
  unfold orQ
  rw [if_neg]
  exact ne_of_gt (nodeHeightOf_pos n)

theorem placeYLoop_y_diff (gap x : ℚ) :
    ∀ (l : List LNode) (c : ℚ) (i : Nat), i + 1 < l.length →
      ((placeYLoop gap x l c).getD (i+1) dummyNode).position.2
          - ((placeYLoop gap x l c).getD i dummyNode).position.2
        = nodeHeightOf (l.getD i dummyNode) + gap := by
  intro l
  induction l with
  | nil => intro c i h; simp at h
  | cons n rest ih =>
      intro c i h
      match i, h with
      | 0, h =>
          match rest, h with
          | m :: rest2, _ =>
              simp [placeYLoop, orQ_nodeHeight]
              ring
      | (j+1), h =>
          have hj : j + 1 < rest.length := by
            simpa using h
          simpa [placeYLoop] using ih _ j hj

/-- C5: Y-layout y-coordinates are strictly increasing, with exact adjacent
gap `height(node i) + max 0 offset ≥ height(node i) + offset`, where
`height = 47 + 28 * columnCount`. -/
theorem yLayout_strict_gaps (nodes : List LNode) (o : YOptions) (i : Nat)
    (h : i + 1 < nodes.length) :
    ((calculateYLayout nodes o).getD i dummyNode).position.2
        < ((calculateYLayout nodes o).getD (i+1) dummyNode).position.2 ∧
    ((calculateYLayout nodes o).getD (i+1) dummyNode).position.2
        - ((calculateYLayout nodes o).getD i dummyNode).position.2
      = (47 + ((nodes.getD i dummyNode).data.columns.length : ℚ) * 28)
          + max 0 o.offset ∧
    (47 + ((nodes.getD i dummyNode).data.columns.length : ℚ) * 28) + o.offset
      ≤ ((calculateYLayout nodes o).getD (i+1) dummyNode).position.2
          - ((calculateYLayout nodes o).getD i dummyNode).position.2 := by
  have hne : ¬ nodes.length = 0 := by omega
  have hd := placeYLoop_y_diff (max 0 o.offset) o.x nodes
    (o.centerY - ((nodes.map nodeHeightOf).foldl (fun s h => s + h) 0
      + max 0 o.offset * ((nodes.length : ℚ) - 1)) / 2) i h
  rw [calculateYLayout, if_neg hne]
  refine ⟨?_, ?_, ?_⟩
  · have h1 : 0 < nodeHeightOf (nodes.getD i dummyNode) + max 0 o.offset := by
      have := nodeHeightOf_pos (nodes.getD i dummyNode)
      have h2 : (0:ℚ) ≤ max 0 o.offset := le_max_left 0 o.offset
      linarith
    simp only at hd
    linarith [hd]
  · simpa [nodeHeightOf] using hd
  · rw [hd]
    unfold nodeHeightOf
    have : o.offset ≤ max 0 o.offset := le_max_right 0 o.offset
    linarith

/-- Witness for C5 at concrete nodes with 1 and 3 columns and offset 20. -/
theorem yLayout_strict_gaps_witness :
    0 + 1 < ([colNode "A" 1, colNode "B" 3] : List LNode).length ∧
    (((calculateYLayout [colNode "A" 1, colNode "B" 3]
          { offset := 20, centerY := 300, x := 0 }).getD 0 dummyNode).position.2
      < ((calculateYLayout [colNode "A" 1, colNode "B" 3]
          { offset := 20, centerY := 300, x := 0 }).getD 1 dummyNode).position.2) :=
  ⟨by decide,
    (yLayout_strict_gaps [colNode "A" 1, colNode "B" 3]
      { offset := 20, centerY := 300, x := 0 } 0 (by decide)).1⟩

/-- C4: evaluating `calculateXLayout` on two default-width (320) nodes with
`centerX = 400`: adjacent nodes are separated by a uniform edge-to-edge gap
of 320 (the first node's width), but the occupied span `[240, 1200]` is
centered at 720, not at `centerX` — the code's `totalWidth` counts only the
gaps, contradicting its own comment. -/
theorem xLayout_span_not_centered :
    ((calculateXLayout [plainNode "A", plainNode "B"] defaultXOptions).map
        (fun n => n.position))
      = [(400, -500), (1040, -500)] ∧
    ((1040 : ℚ) - 320 / 2) - (400 + 320 / 2) = 320 ∧
    (((400 : ℚ) - 320 / 2) + (1040 + 320 / 2)) / 2 ≠ defaultXOptions.centerX := by
  refine ⟨?_, by norm_num, by norm_num [defaultXOptions]⟩
  simp only [calculateXLayout, placeXLoop, plainNode, nodeWidthOf, orQ,
    defaultXOptions, List.map, List.headD, List.length]
  norm_num


/-! ## setPosById / applyPairs lemmas -/

theorem setPosById_length (ps : List LNode) (i : String) (p : ℚ × ℚ) :
    (setPosById ps i p).length = ps.length := by
  induction ps with
  | nil => rfl
  | cons n rest ih =>
      unfold setPosById
      by_cases h : n.id = i <;> simp [h, ih]

theorem setPosById_cons (n : LNode) (rest : List LNode) (i : String) (p : ℚ × ℚ) :
    setPosById (n :: rest) i p =
      if n.id = i then { n with position := p } :: rest
      else n :: setPosById rest i p := rfl

theorem setPosById_getD (ps : List LNode) (i : String) (p : ℚ × ℚ)
    (hnd : (ps.map (fun n => n.id)).Nodup) (k : Nat) :
    (setPosById ps i p).getD k dummyNode =
      (if (ps.getD k dummyNode).id = i ∧ k < ps.length
        then { ps.getD k dummyNode with position := p }
        else ps.getD k dummyNode) := by
  induction ps generalizing k with
  | nil => simp [setPosById]
  | cons n rest ih =>
      simp only [List.map_cons, List.nodup_cons] at hnd
      obtain ⟨hni, hrest⟩ := hnd
      by_cases h : n.id = i
      · subst h
        rw [setPosById_cons, if_pos rfl]
        match k with
        | 0 => simp
        | (j+1) =>
            simp only [List.getD_cons_succ, List.length_cons]
            rw [if_neg]
            rintro ⟨hid, hlt⟩
            have hj : j < rest.length := by omega
            have hmem : (rest.getD j dummyNode).id ∈ rest.map (fun n => n.id) := by
              rw [List.getD_eq_getElem rest dummyNode hj]
              exact List.mem_map.mpr ⟨rest[j], List.getElem_mem hj, rfl⟩
            rw [hid] at hmem
            exact hni hmem
      · rw [setPosById_cons, if_neg h]
        match k with
        | 0 => simp [h]
        | (j+1) =>
            simp only [List.getD_cons_succ, List.length_cons]
            rw [ih hrest j]
            by_cases hb : (rest.getD j dummyNode).id = i ∧ j < rest.length
            · rw [if_pos hb, if_pos ⟨hb.1, by omega⟩]
            · have hc : ¬((rest.getD j dummyNode).id = i ∧ j + 1 < rest.length + 1) := by
                rintro ⟨h1, h2⟩
                exact hb ⟨h1, by omega⟩
              rw [if_neg hb, if_neg hc]


theorem setPosById_map_id (ps : List LNode) (i : String) (p : ℚ × ℚ) :
    (setPosById ps i p).map (fun n => n.id) = ps.map (fun n => n.id) := by
  induction ps with
  | nil => rfl
  | cons n rest ih =>
      rw [setPosById_cons]
      by_cases h : n.id = i <;> simp [h, ih]

theorem setPosById_getD_frame (ps : List LNode) (i : String) (p : ℚ × ℚ)
    (k : Nat) :
    ((setPosById ps i p).getD k dummyNode).id = (ps.getD k dummyNode).id ∧
    ((setPosById ps i p).getD k dummyNode).data = (ps.getD k dummyNode).data := by
  induction ps generalizing k with
  | nil => simp [setPosById]
  | cons n rest ih =>
      rw [setPosById_cons]
      by_cases h : n.id = i
      · rw [if_pos h]
        match k with
        | 0 => simp
        | (j+1) => simp
      · rw [if_neg h]
        match k with
        | 0 => simp
        | (j+1) => simpa using ih j

theorem applyPairs_cons (pr : String × (ℚ × ℚ)) (pairs : List (String × (ℚ × ℚ)))
    (ps : List LNode) :
    applyPairs (pr :: pairs) ps = applyPairs pairs (setPosById ps pr.1 pr.2) := rfl

theorem applyPairs_append (a b : List (String × (ℚ × ℚ))) (ps : List LNode) :
    applyPairs (a ++ b) ps = applyPairs b (applyPairs a ps) := by
  unfold applyPairs
  rw [List.foldl_append]

theorem applyPairs_length (pairs : List (String × (ℚ × ℚ))) (ps : List LNode) :
    (applyPairs pairs ps).length = ps.length := by
  induction pairs generalizing ps with
  | nil => rfl
  | cons pr rest ih =>
      rw [applyPairs_cons, ih, setPosById_length]

theorem applyPairs_map_id (pairs : List (String × (ℚ × ℚ))) (ps : List LNode) :
    (applyPairs pairs ps).map (fun n => n.id) = ps.map (fun n => n.id) := by
  induction pairs generalizing ps with
  | nil => rfl
  | cons pr rest ih =>
      rw [applyPairs_cons, ih, setPosById_map_id]

theorem applyPairs_getD_frame (pairs : List (String × (ℚ × ℚ)))
    (ps : List LNode) (k : Nat) :
    ((applyPairs pairs ps).getD k dummyNode).id = (ps.getD k dummyNode).id ∧
    ((applyPairs pairs ps).getD k dummyNode).data = (ps.getD k dummyNode).data := by
  induction pairs generalizing ps with
  | nil => exact ⟨rfl, rfl⟩
  | cons pr rest ih =>
      rw [applyPairs_cons]
      obtain ⟨h1, h2⟩ := ih (setPosById ps pr.1 pr.2)
      obtain ⟨h3, h4⟩ := setPosById_getD_frame ps pr.1 pr.2 k
      exact ⟨h1.trans h3, h2.trans h4⟩

theorem applyPairs_getD (pairs : List (String × (ℚ × ℚ))) (ps : List LNode)
    (hpk : (pairs.map (fun pr => pr.1)).Nodup)
    (hnd : (ps.map (fun n => n.id)).Nodup) (k : Nat) (hk : k < ps.length) :
    (applyPairs pairs ps).getD k dummyNode =
      (match pairs.find? (fun pr => pr.1 == (ps.getD k dummyNode).id) with
       | some pr => { ps.getD k dummyNode with position := pr.2 }
       | none => ps.getD k dummyNode) := by
  induction pairs generalizing ps with
  | nil => simp [applyPairs]
  | cons pr rest ih =>
      simp only [List.map_cons, List.nodup_cons] at hpk
      obtain ⟨hpr, hrest⟩ := hpk
      rw [applyPairs_cons]
      have hnd' : ((setPosById ps pr.1 pr.2).map (fun n => n.id)).Nodup := by
        rw [setPosById_map_id]; exact hnd
      have hlen' : k < (setPosById ps pr.1 pr.2).length := by
        rw [setPosById_length]; exact hk
      have hid' : ((setPosById ps pr.1 pr.2).getD k dummyNode).id
          = (ps.getD k dummyNode).id := (setPosById_getD_frame ps pr.1 pr.2 k).1
      rw [ih (setPosById ps pr.1 pr.2) hrest hnd' hlen', hid']
      by_cases h : (ps.getD k dummyNode).id = pr.1
      · have hfind : rest.find? (fun q => q.1 == (ps.getD k dummyNode).id) = none := by
          rw [List.find?_eq_none]
          intro q hq
          simp only [beq_iff_eq]
          intro hqe
          rw [h] at hqe
          exact hpr (hqe ▸ List.mem_map.mpr ⟨q, hq, rfl⟩)
        rw [hfind]
        have hcons : List.find? (fun q => q.1 == (ps.getD k dummyNode).id) (pr :: rest)
            = some pr := by
          rw [List.find?_cons_of_pos]
          simp only [beq_iff_eq]
          exact h.symm
        rw [hcons]
        rw [setPosById_getD ps pr.1 pr.2 hnd k, if_pos ⟨h, hk⟩]
      · have hcons : List.find? (fun q => q.1 == (ps.getD k dummyNode).id) (pr :: rest)
            = rest.find? (fun q => q.1 == (ps.getD k dummyNode).id) := by
          rw [List.find?_cons_of_neg]
          simp only [beq_iff_eq]
          intro hqe
          exact h hqe.symm
        rw [hcons]
        rw [setPosById_getD ps pr.1 pr.2 hnd k,
          if_neg (by rintro ⟨h1, _⟩; exact h h1)]


/-! ## Loop-to-update-list equivalences -/

theorem placeConnectedLevels_eq (o : HierOptions)
    (groups : List (Nat × List LNode)) (ps : List LNode) :
    placeConnectedLevels o groups ps = applyPairs (connPairs o groups) ps := by
  induction groups generalizing ps with
  | nil => rfl
  | cons g rest ih =>
      have hrow : ∀ q : List LNode,
          g.2.enum.foldl (fun a idxn =>
            setPosById a idxn.2.id
              (o.centerX - ((g.2.length : ℚ) - 1) * o.nodeSpacing / 2
                  + (idxn.1 : ℚ) * o.nodeSpacing,
               connectedStartY + (g.1 : ℚ) * o.levelSpacing)) q
          = applyPairs (connRowPairs o g) q := by
        intro q
        rw [connRowPairs, applyPairs, List.foldl_map]
      simp only [placeConnectedLevels, List.foldl_cons] at *
      rw [connPairs, List.flatMap_cons, applyPairs_append, ← connPairs, ← ih, hrow]

theorem div_pred_of_mod_eq_zero (p t : Nat) (hp : 1 ≤ p) (hm : t % p = 0)
    (hq : 0 < t / p) : (t - 1) / p = t / p - 1 := by
  obtain ⟨q, hqdef⟩ : ∃ q, t / p = q + 1 := ⟨t / p - 1, by omega⟩
  have hdm := Nat.div_add_mod t p
  rw [hm, hqdef] at hdm
  have ha : t = p * q + p := by rw [← hdm]; ring
  have ht1 : t - 1 = (p - 1) + q * p := by
    have hcomm : q * p = p * q := Nat.mul_comm q p
    omega
  rw [ht1, Nat.add_mul_div_right _ _ (by omega : 0 < p),
    Nat.div_eq_of_lt (by omega), hqdef]
  omega

theorem div_pred_of_mod_ne_zero (p t : Nat) (hp : 1 ≤ p) (hm : t % p ≠ 0) :
    (t - 1) / p = t / p := by
  have hdm := Nat.div_add_mod t p
  have hr : 1 ≤ t % p := by omega
  have hrlt : t % p < p := Nat.mod_lt t (by omega)
  have ht1 : t - 1 = (t % p - 1) + (t / p) * p := by
    have hcomm : (t / p) * p = p * (t / p) := Nat.mul_comm _ _
    omega
  rw [ht1, Nat.add_mul_div_right _ _ (by omega : 0 < p),
    Nat.div_eq_of_lt (by omega)]
  omega

theorem placeIsolatedLoop_cons (o : HierOptions) (N index : Nat) (node : LNode)
    (rest : List (Nat × LNode)) (currentY currentX : ℚ) (ps : List LNode) :
    placeIsolatedLoop o N ((index, node) :: rest) currentY currentX ps =
      (let row := index / o.isolatedNodesPerRow
       let col := index % o.isolatedNodesPerRow
       let cY := if col = 0 ∧ 0 < row
         then currentY + o.isolatedRowSpacing else currentY
       let cX := if col = 0 ∧ 0 < row
         then isoRowStartX o N row else currentX
       placeIsolatedLoop o N rest cY cX
         (setPosById ps node.id
           (cX + (col : ℚ) * o.isolatedNodeSpacing, cY))) := rfl

theorem placeIsolatedLoop_eq (o : HierOptions) (N : Nat)
    (hp : 1 ≤ o.isolatedNodesPerRow) (l : List LNode) :
    ∀ (t : Nat) (ps : List LNode),
      placeIsolatedLoop o N (List.enumFrom t l)
        ((connectedStartY - o.levelSpacing)
          + (((if t = 0 then 0 else (t - 1) / o.isolatedNodesPerRow) : Nat) : ℚ)
              * o.isolatedRowSpacing)
        (isoRowStartX o N
          (if t = 0 then 0 else (t - 1) / o.isolatedNodesPerRow))
        ps
      = applyPairs (isoPairsOf o N (List.enumFrom t l)) ps := by
  induction l with
  | nil => intro t ps; rfl
  | cons n rest ih =>
      intro t ps
      set p := o.isolatedNodesPerRow with hpdef
      set P : Nat := if t = 0 then 0 else (t - 1) / p with hPdef
      have hProw : P = t / p ∨ (t % p = 0 ∧ 0 < t / p ∧ P + 1 = t / p) := by
        by_cases h0 : t = 0
        · left; simp [hPdef, h0]
        · by_cases hm : t % p = 0
          · by_cases hq : 0 < t / p
            · right
              refine ⟨hm, hq, ?_⟩
              rw [hPdef, if_neg h0, div_pred_of_mod_eq_zero p t hp hm hq]
              omega
            · left
              have hdm := Nat.div_add_mod t p
              have hz : t / p = 0 := Nat.eq_zero_of_not_pos hq
              rw [hz, Nat.mul_zero, Nat.zero_add] at hdm
              exact absurd (by omega : t = 0) h0
          · left
            rw [hPdef, if_neg h0, div_pred_of_mod_ne_zero p t hp hm]
      rw [List.enumFrom_cons, placeIsolatedLoop_cons]
      simp only []
      have hcond : (t % p = 0 ∧ 0 < t / p) ∨ ¬(t % p = 0 ∧ 0 < t / p) := em _
      -- the updated currentY/currentX always equal the row-formula values
      have key : (if t % p = 0 ∧ 0 < t / p
            then (connectedStartY - o.levelSpacing) + (P : ℚ) * o.isolatedRowSpacing
              + o.isolatedRowSpacing
            else (connectedStartY - o.levelSpacing) + (P : ℚ) * o.isolatedRowSpacing)
          = (connectedStartY - o.levelSpacing) + ((t / p : Nat) : ℚ) * o.isolatedRowSpacing
          ∧ (if t % p = 0 ∧ 0 < t / p
            then isoRowStartX o N (t / p)
            else isoRowStartX o N P)
          = isoRowStartX o N (t / p) := by
        rcases hcond with hc | hc
        · rcases hProw with hP | ⟨_, _, hP⟩
          · exfalso
            rcases hc with ⟨hm, hq⟩
            by_cases h0 : t = 0
            · rw [h0] at hq; simp at hq
            · rw [hPdef, if_neg h0, div_pred_of_mod_eq_zero p t hp hm hq] at hP
              omega
          · rw [if_pos hc, if_pos hc, ← hP]
            constructor
            · push_cast
              ring
            · rfl
        · rcases hProw with hP | ⟨hm, hq, _⟩
          · rw [if_neg hc, if_neg hc, hP]
            exact ⟨rfl, rfl⟩
          · exact absurd ⟨hm, hq⟩ hc
      rw [key.1, key.2]
      rw [show isoPairsOf o N ((t, n) :: List.enumFrom (t + 1) rest)
          = ((n.id,
              (isoRowStartX o N (t / p) + ((t % p : Nat) : ℚ) * o.isolatedNodeSpacing,
               (connectedStartY - o.levelSpacing)
                 + ((t / p : Nat) : ℚ) * o.isolatedRowSpacing))
             : String × (ℚ × ℚ)) :: isoPairsOf o N (List.enumFrom (t + 1) rest) from by
        rw [isoPairsOf, List.map_cons, ← isoPairsOf]]
      rw [applyPairs_cons]
      have ihspec := ih (t + 1)
      simp only [Nat.succ_ne_zero, if_false, Nat.succ_sub_one] at ihspec
      exact ihspec _

/-! ## Grouping lemmas -/

theorem insertGroup_flatten_perm (g : List (Nat × List LNode)) (lvl : Nat)
    (n : LNode) :
    ((insertGroup g lvl n).flatMap (fun b => b.2)).Perm
      ((g.flatMap (fun b => b.2)) ++ [n]) := by
  induction g with
  | nil =>
      rw [show insertGroup [] lvl n = [(lvl, [n])] from rfl]
      simp only [List.flatMap_cons, List.flatMap_nil, List.nil_append,
        List.append_nil]
      exact List.Perm.refl _
  | cons b rest ih =>
      obtain ⟨l, ns⟩ := b
      by_cases h : l = lvl
      · simp only [insertGroup, if_pos h, List.flatMap_cons]
        rw [List.append_assoc, List.append_assoc]
        exact List.Perm.append_left ns List.perm_append_comm
      · simp only [insertGroup, if_neg h, List.flatMap_cons]
        rw [List.append_assoc]
        exact List.Perm.append_left ns ih

theorem groupByLevel_flatten_perm (conn : List LNode) (lvlOf : String → Nat) :
    ((groupByLevel conn lvlOf).flatMap (fun b => b.2)).Perm conn := by
  suffices h : ∀ acc : List (Nat × List LNode),
      ((conn.foldl (fun g n => insertGroup g (lvlOf n.id) n) acc).flatMap
        (fun b => b.2)).Perm ((acc.flatMap (fun b => b.2)) ++ conn) by
    simpa using h []
  induction conn with
  | nil =>
      intro acc
      rw [List.foldl_nil, List.append_nil]
  | cons n rest ih =>
      intro acc
      rw [List.foldl_cons]
      refine (ih (insertGroup acc (lvlOf n.id) n)).trans ?_
      have h1 := insertGroup_flatten_perm acc (lvlOf n.id) n
      have h2 : (((acc.flatMap (fun b => b.2)) ++ [n]) ++ rest)
          = (acc.flatMap (fun b => b.2)) ++ (n :: rest) := by
        rw [List.append_assoc]
        rfl
      rw [← h2]
      exact h1.append_right rest

theorem insertGroup_key (g : List (Nat × List LNode)) (lvl : Nat) (n : LNode)
    (lvlOf : String → Nat)
    (hg : ∀ b ∈ g, ∀ m ∈ b.2, lvlOf m.id = b.1) (hn : lvlOf n.id = lvl) :
    ∀ b ∈ insertGroup g lvl n, ∀ m ∈ b.2, lvlOf m.id = b.1 := by
  induction g with
  | nil =>
      intro b hb m hm
      simp only [insertGroup, List.mem_singleton] at hb
      subst hb
      simp only [List.mem_singleton] at hm
      subst hm
      exact hn
  | cons b0 rest ih =>
      obtain ⟨l, ns⟩ := b0
      intro b hb m hm
      by_cases h : l = lvl
      · simp only [insertGroup, if_pos h, List.mem_cons] at hb
        rcases hb with hb | hb
        · subst hb
          simp only [List.mem_append, List.mem_singleton] at hm
          rcases hm with hm | hm
          · exact hg (l, ns) (List.mem_cons_self _ _) m hm
          · subst hm; rw [hn, h]
        · exact hg b (List.mem_cons_of_mem _ hb) m hm
      · simp only [insertGroup, if_neg h, List.mem_cons] at hb
        rcases hb with hb | hb
        · subst hb
          exact hg (l, ns) (List.mem_cons_self _ _) m hm
        · exact ih (fun c hc => hg c (List.mem_cons_of_mem _ hc)) b hb m hm

theorem groupByLevel_key (conn : List LNode) (lvlOf : String → Nat) :
    ∀ b ∈ groupByLevel conn lvlOf, ∀ m ∈ b.2, lvlOf m.id = b.1 := by
  suffices h : ∀ acc : List (Nat × List LNode),
      (∀ b ∈ acc, ∀ m ∈ b.2, lvlOf m.id = b.1) →
      ∀ b ∈ conn.foldl (fun g n => insertGroup g (lvlOf n.id) n) acc,
        ∀ m ∈ b.2, lvlOf m.id = b.1 by
    exact h [] (by simp)
  induction conn with
  | nil => intro acc hacc; simpa using hacc
  | cons n rest ih =>
      intro acc hacc
      rw [List.foldl_cons]
      exact ih (insertGroup acc (lvlOf n.id) n)
        (insertGroup_key acc (lvlOf n.id) n lvlOf hacc rfl)

/-! ## Key lists of the update pairs -/

theorem connRowPairs_keys (o : HierOptions) (g : Nat × List LNode) :
    (connRowPairs o g).map (fun pr => pr.1) = g.2.map (fun n => n.id) := by
  rw [connRowPairs, List.map_map]
  have h : g.2.enum.map ((fun pr => pr.1) ∘ (fun idxn =>
      ((idxn.2.id : String),
        ((o.centerX - ((g.2.length : ℚ) - 1) * o.nodeSpacing / 2
          + (idxn.1 : ℚ) * o.nodeSpacing,
         connectedStartY + (g.1 : ℚ) * o.levelSpacing) : ℚ × ℚ))))
      = g.2.enum.map (fun idxn => idxn.2.id) := rfl
  rw [h, show (fun idxn : Nat × LNode => idxn.2.id)
      = (fun n : LNode => n.id) ∘ (Prod.snd) from rfl, ← List.map_map,
    List.enum_map_snd]

theorem connPairs_keys_perm (o : HierOptions) (groups : List (Nat × List LNode)) :
    ((connPairs o groups).map (fun pr => pr.1)).Perm
      ((groups.flatMap (fun b => b.2)).map (fun n => n.id)) := by
  rw [connPairs, List.map_flatMap, List.map_flatMap]
  have h : ∀ g, (connRowPairs o g).map (fun pr => pr.1) = g.2.map (fun n => n.id) :=
    connRowPairs_keys o
  rw [show (fun g => (connRowPairs o g).map (fun pr => pr.1))
      = (fun g : Nat × List LNode => g.2.map (fun n => n.id)) from funext h]

theorem isoPairsOf_keys (o : HierOptions) (N : Nat) (l : List LNode) :
    (isoPairsOf o N l.enum).map (fun pr => pr.1) = l.map (fun n => n.id) := by
  rw [isoPairsOf, List.map_map]
  rw [show ((fun pr : String × (ℚ × ℚ) => pr.1) ∘ (fun idxn : Nat × LNode =>
      (idxn.2.id,
        (isoRowStartX o N (idxn.1 / o.isolatedNodesPerRow)
            + ((idxn.1 % o.isolatedNodesPerRow : Nat) : ℚ) * o.isolatedNodeSpacing,
         (connectedStartY - o.levelSpacing)
            + ((idxn.1 / o.isolatedNodesPerRow : Nat) : ℚ) * o.isolatedRowSpacing))))
      = (fun n : LNode => n.id) ∘ (Prod.snd) from rfl, ← List.map_map,
    List.enum_map_snd]

theorem find?_eq_of_nodup_keys (pairs : List (String × (ℚ × ℚ))) (id : String)
    (v : ℚ × ℚ) (hk : (pairs.map (fun pr => pr.1)).Nodup)
    (hmem : (id, v) ∈ pairs) :
    pairs.find? (fun pr => pr.1 == id) = some (id, v) := by
  induction pairs with
  | nil => simp at hmem
  | cons pr rest ih =>
      simp only [List.map_cons, List.nodup_cons] at hk
      obtain ⟨hpr, hrest⟩ := hk
      rcases List.mem_cons.mp hmem with h | h
      · subst h
        rw [List.find?_cons_of_pos]
        simp
      · have hne : pr.1 ≠ id := by
          intro he
          exact hpr (he ▸ List.mem_map.mpr ⟨(id, v), h, rfl⟩)
        rw [List.find?_cons_of_neg _ (by simpa using hne)]
        exact ih hrest h

/-! ## Filter-index lemma -/

theorem filter_getD_countP (p : LNode → Bool) (l : List LNode) (k : Nat)
    (hk : k < l.length) (hp : p (l.getD k dummyNode) = true) :
    (l.take k).countP p < (l.filter p).length ∧
    (l.filter p).getD ((l.take k).countP p) dummyNode = l.getD k dummyNode := by
  induction l generalizing k with
  | nil => simp at hk
  | cons a rest ih =>
      match k with
      | 0 =>
          simp only [List.getD_cons_zero] at hp
          simp [List.filter_cons, hp]
      | (j+1) =>
          simp only [List.getD_cons_succ] at hp
          have hj : j < rest.length := by simpa using hk
          obtain ⟨ih1, ih2⟩ := ih j hj hp
          rw [List.take_succ_cons, List.countP_cons, List.filter_cons]
          by_cases ha : p a = true
          · rw [if_pos ha]
            simp only [ha, if_true, List.length_cons, List.getD_cons_succ]
            exact ⟨by omega, ih2⟩
          · simp only [if_neg ha, Nat.add_zero, List.getD_cons_succ]
            exact ⟨ih1, ih2⟩


/-! ## The hierarchical layout as a single update-list application -/

theorem calculateHierarchicalLayout_eq (nodes : List LNode) (edges : List LEdge)
    (o : HierOptions) (hne : nodes ≠ []) (hp : 1 ≤ o.isolatedNodesPerRow) :
    calculateHierarchicalLayout nodes edges o =
      applyPairs
        (connPairs o
            (groupByLevel (nodes.filter (fun n => isConnectedNode edges n.id))
              (fun id => (((runLevels (incomingOf edges) (hierFuel nodes edges)
                (nodes.filter (fun n => isConnectedNode edges n.id))).levels).lookup
                  id).getD 0))
          ++ isoPairsOf o (nodes.filter (fun n => !(isConnectedNode edges n.id))).length
              (nodes.filter (fun n => !(isConnectedNode edges n.id))).enum)
        nodes := by
  have h0 : ¬ nodes.length = 0 := by
    simpa [List.length_eq_zero] using hne
  rw [calculateHierarchicalLayout, if_neg h0]
  have hmapid : nodes.map (fun n => n) = nodes := List.map_id' nodes
  rw [hmapid]
  show placeIsolatedLoop o
      (List.filter (fun n => !isConnectedNode edges n.id) nodes).length
      (List.filter (fun n => !isConnectedNode edges n.id) nodes).enum
      (connectedStartY - o.levelSpacing)
      (isoRowStartX o (List.filter (fun n => !isConnectedNode edges n.id) nodes).length 0)
      (placeConnectedLevels o
        (groupByLevel (List.filter (fun n => isConnectedNode edges n.id) nodes)
          (fun id => (List.lookup id (runLevels (incomingOf edges)
              (hierFuel nodes edges)
              (List.filter (fun n => isConnectedNode edges n.id) nodes)).levels).getD 0))
        nodes)
    = _
  rw [placeConnectedLevels_eq]
  have hiso := placeIsolatedLoop_eq o
    (nodes.filter (fun n => !(isConnectedNode edges n.id))).length hp
    (nodes.filter (fun n => !(isConnectedNode edges n.id))) 0
  norm_num at hiso
  rw [show (nodes.filter (fun n => !(isConnectedNode edges n.id))).enum
      = List.enumFrom 0 (nodes.filter (fun n => !(isConnectedNode edges n.id)))
      from rfl]
  rw [hiso]
  rw [← applyPairs_append]


/-- The y-coordinate of every output node of the hierarchical layout, for
distinct node ids: connected nodes sit at `200 + level*levelSpacing`,
isolated nodes at `200 - levelSpacing + row*isolatedRowSpacing` where `row`
is their rank among the isolated nodes divided by `isolatedNodesPerRow`. -/
theorem hierarchical_y_char (nodes : List LNode) (edges : List LEdge)
    (o : HierOptions) (hnd : (nodes.map (fun n => n.id)).Nodup)
    (hp : 1 ≤ o.isolatedNodesPerRow) (k : Nat) (hk : k < nodes.length) :
    ((calculateHierarchicalLayout nodes edges o).getD k dummyNode).position.2
      = (if isConnectedNode edges (nodes.getD k dummyNode).id
         then connectedStartY
            + (lvlOfRun nodes edges (nodes.getD k dummyNode).id : ℚ) * o.levelSpacing
         else (connectedStartY - o.levelSpacing)
            + ((isoIndexAt nodes edges k / o.isolatedNodesPerRow : Nat) : ℚ)
                * o.isolatedRowSpacing) := by
  have hne : nodes ≠ [] := by
    intro h
    rw [h] at hk
    simp at hk
  rw [calculateHierarchicalLayout_eq nodes edges o hne hp]
  set conn := nodes.filter (fun n => isConnectedNode edges n.id) with hconn
  set iso := nodes.filter (fun n => !(isConnectedNode edges n.id)) with hisodef
  set lvlF : String → Nat := (fun id =>
    (((runLevels (incomingOf edges) (hierFuel nodes edges) conn).levels).lookup
      id).getD 0) with hlvlF
  set groups := groupByLevel conn lvlF with hgroups
  have hkeysconn : ((connPairs o groups).map (fun pr => pr.1)).Perm
      (conn.map (fun n => n.id)) :=
    (connPairs_keys_perm o groups).trans
      ((groupByLevel_flatten_perm conn lvlF).map _)
  have hkeysiso : (isoPairsOf o iso.length iso.enum).map (fun pr => pr.1)
      = iso.map (fun n => n.id) := isoPairsOf_keys o iso.length iso
  have hkeys : (((connPairs o groups ++ isoPairsOf o iso.length iso.enum)).map
      (fun pr => pr.1)).Perm (nodes.map (fun n => n.id)) := by
    rw [List.map_append, hkeysiso]
    refine (hkeysconn.append_right _).trans ?_
    rw [← List.map_append]
    exact (List.filter_append_perm _ nodes).map _
  have hkeynodup : ((connPairs o groups
      ++ isoPairsOf o iso.length iso.enum).map (fun pr => pr.1)).Nodup :=
    (hkeys.nodup_iff).mpr hnd
  rw [applyPairs_getD _ nodes hkeynodup hnd k hk]
  have hself : nodes.getD k dummyNode ∈ nodes := by
    rw [List.getD_eq_getElem nodes dummyNode hk]
    exact List.getElem_mem hk
  by_cases hc : isConnectedNode edges (nodes.getD k dummyNode).id = true
  · have hmemconn : nodes.getD k dummyNode ∈ conn := by
      rw [hconn]
      exact List.mem_filter.mpr ⟨hself, hc⟩
    have hflat : nodes.getD k dummyNode ∈ groups.flatMap (fun b => b.2) :=
      ((groupByLevel_flatten_perm conn lvlF).mem_iff).mpr hmemconn
    obtain ⟨g, hg, hmemg⟩ := List.mem_flatMap.mp hflat
    obtain ⟨idx, hidxlt, hgetg⟩ := List.mem_iff_getElem.mp hmemg
    have hpairmem : (((nodes.getD k dummyNode).id : String),
        ((o.centerX - ((g.2.length : ℚ) - 1) * o.nodeSpacing / 2
            + (idx : ℚ) * o.nodeSpacing,
          connectedStartY + (g.1 : ℚ) * o.levelSpacing) : ℚ × ℚ))
        ∈ connPairs o groups := by
      rw [connPairs]
      refine List.mem_flatMap.mpr ⟨g, hg, ?_⟩
      rw [connRowPairs]
      refine List.mem_map.mpr ⟨(idx, nodes.getD k dummyNode), ?_, rfl⟩
      refine List.mem_iff_getElem.mpr ⟨idx, ?_, ?_⟩
      · rw [List.enum_length]
        exact hidxlt
      · rw [List.getElem_enum, hgetg]
    have hlvlg : lvlF (nodes.getD k dummyNode).id = g.1 :=
      groupByLevel_key conn lvlF g hg _ hmemg
    rw [find?_eq_of_nodup_keys _ _ _ hkeynodup
      (List.mem_append.mpr (Or.inl hpairmem))]
    rw [if_pos hc]
    show connectedStartY + (g.1 : ℚ) * o.levelSpacing = _
    rw [show lvlOfRun nodes edges (nodes.getD k dummyNode).id
        = lvlF (nodes.getD k dummyNode).id from rfl, hlvlg]
  · have hcf : (fun n => !(isConnectedNode edges n.id)) (nodes.getD k dummyNode)
        = true := by
      simp only [Bool.not_eq_true']
      exact Bool.not_eq_true _ ▸ (by simpa using hc)
    obtain ⟨hjlt, hjget⟩ := filter_getD_countP
      (fun n => !(isConnectedNode edges n.id)) nodes k hk hcf
    have hpairmem : (((nodes.getD k dummyNode).id : String),
        ((isoRowStartX o iso.length
              (isoIndexAt nodes edges k / o.isolatedNodesPerRow)
            + ((isoIndexAt nodes edges k % o.isolatedNodesPerRow : Nat) : ℚ)
                * o.isolatedNodeSpacing,
          (connectedStartY - o.levelSpacing)
            + ((isoIndexAt nodes edges k / o.isolatedNodesPerRow : Nat) : ℚ)
                * o.isolatedRowSpacing) : ℚ × ℚ))
        ∈ isoPairsOf o iso.length iso.enum := by
      rw [isoPairsOf]
      refine List.mem_map.mpr
        ⟨(isoIndexAt nodes edges k, nodes.getD k dummyNode), ?_, rfl⟩
      refine List.mem_iff_getElem.mpr ⟨isoIndexAt nodes edges k, ?_, ?_⟩
      · rw [List.enum_length]
        exact hjlt
      · rw [List.getElem_enum]
        rw [show iso[isoIndexAt nodes edges k] =
            iso.getD (isoIndexAt nodes edges k) dummyNode from
          (List.getD_eq_getElem iso dummyNode hjlt).symm]
        rw [hisodef, isoIndexAt]
        exact congrArg _ hjget
    rw [find?_eq_of_nodup_keys _ _ _ hkeynodup
      (List.mem_append.mpr (Or.inr hpairmem))]
    rw [if_neg hc]


/-- C1, amended: isolated nodes all lie strictly above connected nodes
provided node ids are distinct, `isolatedNodesPerRow ≥ 1`,
`isolatedRowSpacing ≥ 0`, and the isolated rows do not wrap far enough to
reach the first connected row:
`((isolatedCount - 1) / isolatedNodesPerRow) * isolatedRowSpacing <
levelSpacing` (with the default options: at most 10 isolated nodes). -/
theorem hierarchical_isolated_above (nodes : List LNode) (edges : List LEdge)
    (o : HierOptions)
    (hnd : (nodes.map (fun n => n.id)).Nodup)
    (hp : 1 ≤ o.isolatedNodesPerRow)
    (hrsp : 0 ≤ o.isolatedRowSpacing)
    (hbound : ((((nodes.filter (fun n => !(isConnectedNode edges n.id))).length - 1)
        / o.isolatedNodesPerRow : Nat) : ℚ) * o.isolatedRowSpacing < o.levelSpacing)
    (k1 k2 : Nat) (hk1 : k1 < nodes.length) (hk2 : k2 < nodes.length)
    (h1 : isConnectedNode edges (nodes.getD k1 dummyNode).id = false)
    (h2 : isConnectedNode edges (nodes.getD k2 dummyNode).id = true) :
    ((calculateHierarchicalLayout nodes edges o).getD k1 dummyNode).position.2
      < ((calculateHierarchicalLayout nodes edges o).getD k2 dummyNode).position.2 := by
  rw [hierarchical_y_char nodes edges o hnd hp k1 hk1,
      hierarchical_y_char nodes edges o hnd hp k2 hk2,
      if_neg (by rw [h1]; exact Bool.false_ne_true), if_pos h2]
  have hlvl : (0:ℚ) ≤ (lvlOfRun nodes edges (nodes.getD k2 dummyNode).id : ℚ) := by
    positivity
  have hmaxrow : (0:ℚ) ≤ ((((nodes.filter
      (fun n => !(isConnectedNode edges n.id))).length - 1)
        / o.isolatedNodesPerRow : Nat) : ℚ) * o.isolatedRowSpacing := by
    positivity
  have hlsppos : (0:ℚ) < o.levelSpacing := lt_of_le_of_lt hmaxrow hbound
  have hrow : isoIndexAt nodes edges k1 / o.isolatedNodesPerRow
      ≤ ((nodes.filter (fun n => !(isConnectedNode edges n.id))).length - 1)
          / o.isolatedNodesPerRow := by
    apply Nat.div_le_div_right
    have := (filter_getD_countP (fun n => !(isConnectedNode edges n.id))
      nodes k1 hk1 (by rw [Bool.not_eq_true']; exact h1)).1
    rw [isoIndexAt]
    omega
  have hrowc : ((isoIndexAt nodes edges k1 / o.isolatedNodesPerRow : Nat) : ℚ)
        * o.isolatedRowSpacing
      ≤ ((((nodes.filter (fun n => !(isConnectedNode edges n.id))).length - 1)
        / o.isolatedNodesPerRow : Nat) : ℚ) * o.isolatedRowSpacing :=
    mul_le_mul_of_nonneg_right (Nat.cast_le.mpr hrow) hrsp
  have hlvlmul : (0:ℚ) ≤ (lvlOfRun nodes edges (nodes.getD k2 dummyNode).id : ℚ)
      * o.levelSpacing := mul_nonneg hlvl hlsppos.le
  linarith

/-- Witness for the amended C1: `A -> B` connected, `C` isolated, defaults. -/
theorem hierarchical_isolated_above_witness :
    ((abcNodes.map (fun n => n.id)).Nodup ∧
      isConnectedNode cexC1Edges (abcNodes.getD 2 dummyNode).id = false ∧
      isConnectedNode cexC1Edges (abcNodes.getD 0 dummyNode).id = true) ∧
    ((calculateHierarchicalLayout abcNodes cexC1Edges
        defaultHierOptions).getD 2 dummyNode).position.2
      < ((calculateHierarchicalLayout abcNodes cexC1Edges
        defaultHierOptions).getD 0 dummyNode).position.2 :=
  ⟨⟨by decide, by decide, by decide⟩,
    hierarchical_isolated_above abcNodes cexC1Edges defaultHierOptions
      (by decide) (by decide) (by norm_num [defaultHierOptions])
      (by
        rw [show ((abcNodes.filter
              (fun n => !(isConnectedNode cexC1Edges n.id))).length - 1)
            / defaultHierOptions.isolatedNodesPerRow = 0 from by decide]
        norm_num [defaultHierOptions])
      2 0 (by decide) (by decide) (by decide) (by decide)⟩

/-- C1, counterexample: with eleven isolated nodes and the default options,
isolated node `I10` (third isolated row, y = 290) does NOT lie strictly
above connected node `A` (level 0, y = 200). -/
theorem hierarchical_isolated_above_fails :
    isConnectedNode cexC1Edges (cexC1Nodes.getD 12 dummyNode).id = false ∧
    isConnectedNode cexC1Edges (cexC1Nodes.getD 0 dummyNode).id = true ∧
    ¬ (((calculateHierarchicalLayout cexC1Nodes cexC1Edges
          defaultHierOptions).getD 12 dummyNode).position.2
        < ((calculateHierarchicalLayout cexC1Nodes cexC1Edges
          defaultHierOptions).getD 0 dummyNode).position.2) := by
  refine ⟨by decide, by decide, ?_⟩
  have h12 := hierarchical_y_char cexC1Nodes cexC1Edges defaultHierOptions
    (by decide) (by decide) 12 (by decide)
  have h0 := hierarchical_y_char cexC1Nodes cexC1Edges defaultHierOptions
    (by decide) (by decide) 0 (by decide)
  rw [if_neg (by decide), show isoIndexAt cexC1Nodes cexC1Edges 12 = 10
    from by decide] at h12
  rw [if_pos (by decide), show lvlOfRun cexC1Nodes cexC1Edges
      (cexC1Nodes.getD 0 dummyNode).id = 0 from by decide] at h0
  rw [h12, h0]
  norm_num [connectedStartY, defaultHierOptions]


/-! ## Termination of the level assignment (C7) -/

theorem assignLevelF_succ (inc : String → List String) (fuel : Nat)
    (id : String) (st : LevelState) :
    assignLevelF inc (fuel + 1) id st =
      (if st.visited.contains id then some ((st.levels.lookup id).getD 0, st)
       else if st.visiting.contains id then some (0, st)
       else
        match parentsFold (fun p s => assignLevelF inc fuel p s) (inc id) []
            { st with visiting := id :: st.visiting } with
        | none => none
        | some (parentLevels, st2) =>
            some ((if parentLevels.length > 0
                then parentLevels.foldr max 0 + 1 else 0),
              { levels := (id, (if parentLevels.length > 0
                  then parentLevels.foldr max 0 + 1 else 0)) :: st2.levels
              , visited := id :: st2.visited
              , visiting := st2.visiting.erase id })) := rfl

theorem parentsFold_visiting
    (f : String → LevelState → Option (Nat × LevelState))
    (hf : ∀ p st r, f p st = some r → r.2.visiting = st.visiting) :
    ∀ (ps : List String) (acc : List Nat) (st : LevelState)
      (r : List Nat × LevelState),
      parentsFold f ps acc st = some r → r.2.visiting = st.visiting := by
  intro ps
  induction ps with
  | nil =>
      intro acc st r h
      simp only [parentsFold, Option.some.injEq] at h
      rw [← h]
  | cons p rest ih =>
      intro acc st r h
      simp only [parentsFold] at h
      match hfp : f p st with
      | none => rw [hfp] at h; exact absurd h (by simp)
      | some (l, st1) =>
          rw [hfp] at h
          have h1 := hf p st (l, st1) hfp
          have h2 := ih (acc ++ [l]) st1 r h
          rw [h2, h1]

theorem assignLevelF_visiting (inc : String → List String) :
    ∀ (fuel : Nat) (id : String) (st : LevelState) (r : Nat × LevelState),
      assignLevelF inc fuel id st = some r → r.2.visiting = st.visiting := by
  intro fuel
  induction fuel with
  | zero => intro id st r h; exact absurd h (by simp [assignLevelF])
  | succ fuel ih =>
      intro id st r h
      rw [assignLevelF_succ] at h
      by_cases h1 : st.visited.contains id
      · rw [if_pos h1] at h
        simp only [Option.some.injEq] at h
        rw [← h]
      · rw [if_neg h1] at h
        by_cases h2 : st.visiting.contains id
        · rw [if_pos h2] at h
          simp only [Option.some.injEq] at h
          rw [← h]
        · rw [if_neg h2] at h
          match hpf : parentsFold (fun p s => assignLevelF inc fuel p s)
              (inc id) [] { st with visiting := id :: st.visiting } with
          | none => rw [hpf] at h; exact absurd h (by simp)
          | some (pl, st2) =>
              rw [hpf] at h
              simp only [Option.some.injEq] at h
              have hv : st2.visiting = id :: st.visiting :=
                parentsFold_visiting _ (fun p s r hr => ih p s r hr)
                  (inc id) [] _ (pl, st2) hpf
              rw [← h]
              show st2.visiting.erase id = st.visiting
              rw [hv, List.erase_cons_head]

theorem parentsFold_isSome
    (f : String → LevelState → Option (Nat × LevelState))
    (hpres : ∀ p st r, f p st = some r → r.2.visiting = st.visiting)
    (V : List String) :
    ∀ (ps : List String),
      (∀ p st, p ∈ ps → st.visiting = V → (f p st).isSome) →
      ∀ (acc : List Nat) (st : LevelState), st.visiting = V →
        (parentsFold f ps acc st).isSome := by
  intro ps
  induction ps with
  | nil => intro _ acc st _; simp [parentsFold]
  | cons p rest ih =>
      intro hf acc st hV
      have h1 : (f p st).isSome := hf p st (List.mem_cons_self _ _) hV
      obtain ⟨r, hr⟩ := Option.isSome_iff_exists.mp h1
      obtain ⟨l, st1⟩ := r
      simp only [parentsFold]
      rw [hr]
      have hV1 : st1.visiting = V := by
        rw [show st1.visiting = st.visiting from hpres p st (l, st1) hr, hV]
      exact ih (fun q st' hq => hf q st' (List.mem_cons_of_mem _ hq))
        (acc ++ [l]) st1 hV1

theorem assignLevelF_isSome (inc : String → List String)
    (univS : Finset String)
    (hinc : ∀ x p, p ∈ inc x → p ∈ univS) :
    ∀ (fuel : Nat) (id : String) (st : LevelState),
      id ∈ univS → (univS \ st.visiting.toFinset).card < fuel →
      (assignLevelF inc fuel id st).isSome := by
  intro fuel
  induction fuel with
  | zero => intro id st _ hcard; omega
  | succ fuel ih =>
      intro id st hid hcard
      rw [assignLevelF_succ]
      by_cases h1 : st.visited.contains id
      · rw [if_pos h1]; rfl
      · rw [if_neg h1]
        by_cases h2 : st.visiting.contains id
        · rw [if_pos h2]; rfl
        · rw [if_neg h2]
          have hnotmem : id ∉ st.visiting := fun hmem =>
            h2 (List.elem_eq_true_of_mem hmem)
          have hidV : id ∈ univS \ st.visiting.toFinset := by
            rw [Finset.mem_sdiff]
            exact ⟨hid, by simpa using hnotmem⟩
          have hcard2 : (univS \ (id :: st.visiting).toFinset).card < fuel := by
            rw [List.toFinset_cons, Finset.sdiff_insert]
            have h3 := Finset.card_erase_lt_of_mem hidV
            omega
          have hsome := parentsFold_isSome (fun p s => assignLevelF inc fuel p s)
            (fun p s r hr => assignLevelF_visiting inc fuel p s r hr)
            (id :: st.visiting) (inc id)
            (fun p st' hp hV => ih p st' (hinc id p hp) (by rw [hV]; exact hcard2))
            [] { st with visiting := id :: st.visiting } rfl
          obtain ⟨r, hr⟩ := Option.isSome_iff_exists.mp hsome
          rw [hr]
          obtain ⟨pl, st2⟩ := r
          rfl


/-- C7: the recursive level assignment always terminates — with fuel
`hierFuel` (one more than the number of ids in the graph) the computation
never runs out, for every node and edge list, cycles included.  Moreover a
node revisited while still marked visiting gets level 0, a fresh node with
no predecessors gets level 0, and otherwise the level is
`max(parent levels) + 1`. -/
theorem assignLevel_terminates (nodes : List LNode) (edges : List LEdge) :
    (∀ (id : String) (st : LevelState), id ∈ hierUniv nodes edges →
        st.visiting = [] →
        (assignLevelF (incomingOf edges) (hierFuel nodes edges) id st).isSome) ∧
    (∀ (inc : String → List String) (fuel : Nat) (id : String)
        (st : LevelState),
        st.visited.contains id = false → st.visiting.contains id = true →
        assignLevelF inc (fuel + 1) id st = some (0, st)) ∧
    (∀ (inc : String → List String) (fuel : Nat) (id : String)
        (st : LevelState) (r : Nat × LevelState),
        st.visited.contains id = false → st.visiting.contains id = false →
        inc id = [] →
        assignLevelF inc (fuel + 1) id st = some r → r.1 = 0) ∧
    (∀ (inc : String → List String) (fuel : Nat) (id : String)
        (st : LevelState) (pl : List Nat) (st2 : LevelState)
        (r : Nat × LevelState),
        st.visited.contains id = false → st.visiting.contains id = false →
        parentsFold (fun p s => assignLevelF inc fuel p s) (inc id) []
          { st with visiting := id :: st.visiting } = some (pl, st2) →
        assignLevelF inc (fuel + 1) id st = some r →
        r.1 = (if pl.length > 0 then pl.foldr max 0 + 1 else 0)) := by
  refine ⟨?_, ?_, ?_, ?_⟩
  · intro id st hid hV
    apply assignLevelF_isSome (incomingOf edges) (hierUniv nodes edges).toFinset
    · intro x p hp
      rw [List.mem_toFinset]
      rw [incomingOf] at hp
      obtain ⟨e, he, hpe⟩ := List.mem_map.mp hp
      rw [hierUniv]
      refine List.mem_append.mpr (Or.inl (List.mem_append.mpr (Or.inr ?_)))
      exact List.mem_map.mpr ⟨e, (List.mem_filter.mp he).1, hpe⟩
    · rwa [List.mem_toFinset]
    · rw [hV]
      simp only [List.toFinset_nil, Finset.sdiff_empty]
      have h1 : (hierUniv nodes edges).toFinset.card
          ≤ (hierUniv nodes edges).length := List.toFinset_card_le _
      rw [hierFuel]
      omega
  · intro inc fuel id st h1 h2
    rw [assignLevelF_succ, if_neg (by rw [h1]; exact Bool.false_ne_true),
      if_pos h2]
  · intro inc fuel id st r h1 h2 hinc h
    rw [assignLevelF_succ, if_neg (by rw [h1]; exact Bool.false_ne_true),
      if_neg (by rw [h2]; exact Bool.false_ne_true), hinc] at h
    simp only [parentsFold, List.length_nil, gt_iff_lt, Nat.lt_irrefl,
      if_false, Option.some.injEq] at h
    rw [← h]
  · intro inc fuel id st pl st2 r h1 h2 hpf h
    rw [assignLevelF_succ, if_neg (by rw [h1]; exact Bool.false_ne_true),
      if_neg (by rw [h2]; exact Bool.false_ne_true), hpf] at h
    simp only [Option.some.injEq] at h
    rw [← h]

/-- Witness for C7 on a two-node cycle: the computation returns a value. -/
theorem assignLevel_terminates_witness :
    ("A" ∈ hierUniv cycleNodes cycleEdges ∧
      (initLevelState).visiting = ([] : List String)) ∧
    (assignLevelF (incomingOf cycleEdges) (hierFuel cycleNodes cycleEdges)
      "A" initLevelState).isSome :=
  ⟨⟨by decide, rfl⟩,
    (assignLevel_terminates cycleNodes cycleEdges).1 "A" initLevelState
      (by decide) rfl⟩


/-! ## Circular layout (C8) -/

/-- C8: node `i` of `calculateCircularLayout` sits exactly at
`(centerX + r·cos(i·2π/n − π/2), centerY + r·sin(i·2π/n − π/2))`; its
Euclidean distance from the center equals `radius` (for `radius ≥ 0`), and
consecutive placement angles differ by exactly `2π/n`. -/
theorem circular_layout_char (nodes : List RNode) (o : CircOptions)
    (hr : 0 ≤ o.radius) (i : Nat) (hi : i < nodes.length) :
    ((calculateCircularLayout nodes o).getD i dummyRNode).position =
      (o.centerX + o.radius * Real.cos
          ((i : ℝ) * ((2 * Real.pi) / (nodes.length : ℝ)) - Real.pi / 2),
       o.centerY + o.radius * Real.sin
          ((i : ℝ) * ((2 * Real.pi) / (nodes.length : ℝ)) - Real.pi / 2)) ∧
    Real.sqrt ((((calculateCircularLayout nodes o).getD i dummyRNode).position.1
          - o.centerX) ^ 2
        + (((calculateCircularLayout nodes o).getD i dummyRNode).position.2
          - o.centerY) ^ 2) = o.radius ∧
    (((i + 1 : ℕ) : ℝ) * ((2 * Real.pi) / (nodes.length : ℝ)) - Real.pi / 2)
        - ((i : ℝ) * ((2 * Real.pi) / (nodes.length : ℝ)) - Real.pi / 2)
      = (2 * Real.pi) / (nodes.length : ℝ) := by
  have hne : ¬ nodes.length = 0 := by omega
  have hpos : ((calculateCircularLayout nodes o).getD i dummyRNode).position =
      (o.centerX + o.radius * Real.cos
          ((i : ℝ) * ((2 * Real.pi) / (nodes.length : ℝ)) - Real.pi / 2),
       o.centerY + o.radius * Real.sin
          ((i : ℝ) * ((2 * Real.pi) / (nodes.length : ℝ)) - Real.pi / 2)) := by
    rw [calculateCircularLayout, if_neg hne]
    have hlen : i < (nodes.enum.map (fun idxn =>
        let angle := (idxn.1 : ℝ) * ((2 * Real.pi) / (nodes.length : ℝ))
          - Real.pi / 2
        { idxn.2 with position := (o.centerX + o.radius * Real.cos angle,
            o.centerY + o.radius * Real.sin angle) : RNode})).length := by
      rw [List.length_map, List.enum_length]
      exact hi
    rw [List.getD_eq_getElem _ _ hlen, List.getElem_map, List.getElem_enum]
  refine ⟨hpos, ?_, by push_cast; ring⟩
  rw [hpos]
  set a := (i : ℝ) * ((2 * Real.pi) / (nodes.length : ℝ)) - Real.pi / 2
  have key : (o.centerX + o.radius * Real.cos a - o.centerX) ^ 2
      + (o.centerY + o.radius * Real.sin a - o.centerY) ^ 2
      = o.radius ^ 2 * (Real.sin a ^ 2 + Real.cos a ^ 2) := by ring
  show Real.sqrt _ = o.radius
  rw [key, Real.sin_sq_add_cos_sq, mul_one, Real.sqrt_sq hr]

/-- Witness for C8 at four nodes with the default options, index 1. -/
theorem circular_layout_char_witness :
    ((0:ℝ) ≤ defaultCircOptions.radius ∧
      1 < ([rnode "A", rnode "B", rnode "C", rnode "D"] : List RNode).length) ∧
    Real.sqrt ((((calculateCircularLayout
          [rnode "A", rnode "B", rnode "C", rnode "D"]
          defaultCircOptions).getD 1 dummyRNode).position.1
            - defaultCircOptions.centerX) ^ 2
        + (((calculateCircularLayout
          [rnode "A", rnode "B", rnode "C", rnode "D"]
          defaultCircOptions).getD 1 dummyRNode).position.2
            - defaultCircOptions.centerY) ^ 2) = defaultCircOptions.radius :=
  ⟨⟨by norm_num [defaultCircOptions], by decide⟩,
    (circular_layout_char [rnode "A", rnode "B", rnode "C", rnode "D"]
      defaultCircOptions (by norm_num [defaultCircOptions]) 1 (by decide)).2.1⟩


/-! ## Force-directed layout (C3) -/

theorem pairIndices_two : pairIndices 2 = [(0, 1)] := by decide

theorem sqrt_ten_thousand : Real.sqrt 10000 = 100 := by
  rw [show (10000:ℝ) = 100 ^ 2 by norm_num]
  exact Real.sqrt_sq (by norm_num)

/-- C3, counterexample: two nodes, no edges, one iteration, default
parameters, a fixed random seed.  The collision pass pushes the nodes to
exactly `minDistance = 150` apart, but the subsequent damping/centering/
integration moves them back to distance `148.68 < 150` — the post-loop
minimum-distance invariant fails. -/
theorem force_min_distance_fails :
    1 ≤ cexForceOptions.iterations ∧
    euclDist
        ((calculateForceDirectedLayout [rnode "A", rnode "B"] []
            cexForceOptions cexForceRand).getD 0 dummyRNode).position
        ((calculateForceDirectedLayout [rnode "A", rnode "B"] []
            cexForceOptions cexForceRand).getD 1 dummyRNode).position
      < cexForceOptions.minDistance * cexForceOptions.repulsionMultiplier := by
  have hout : calculateForceDirectedLayout [rnode "A", rnode "B"] []
      cexForceOptions cexForceRand
      = [⟨"A", mkData "A", (16283/50, 300)⟩, ⟨"B", mkData "B", (23717/50, 300)⟩] := by
    rw [calculateForceDirectedLayout, if_neg (by norm_num)]
    have henum : ([rnode "A", rnode "B"] : List RNode).enum
        = [(0, rnode "A"), (1, rnode "B")] := rfl
    rw [henum]
    have hinit : ([((0:Nat), rnode "A"), ((1:Nat), rnode "B")] :
          List (Nat × RNode)).map (fun idxn =>
        { id := idxn.2.id
        , data := idxn.2.data
        , position := (cexForceOptions.centerX
              + ((cexForceRand idxn.1).1 - 0.5) * 400,
            cexForceOptions.centerY + ((cexForceRand idxn.1).2 - 0.5) * 400)
        , velocity := ((0:ℝ), (0:ℝ)) : FNode })
        = [⟨"A", mkData "A", (350, 300), (0, 0)⟩, ⟨"B", mkData "B", (450, 300), (0, 0)⟩] := by
      norm_num [rnode, cexForceRand, cexForceOptions]
    rw [hinit]
    have hrep : repulsionPass cexForceOptions
        [⟨"A", mkData "A", (350, 300), (0, 0)⟩, ⟨"B", mkData "B", (450, 300), (0, 0)⟩]
        = [⟨"A", mkData "A", (350, 300), (-(1/10), 0)⟩, ⟨"B", mkData "B", (450, 300), (1/10, 0)⟩] := by
      norm_num [repulsionPass, pairIndices_two, applyRepulsion, orR,
        cexForceOptions, sqrt_ten_thousand, List.set]
    have hcol : collisionPass cexForceOptions
        [⟨"A", mkData "A", (350, 300), (-(1/10), 0)⟩, ⟨"B", mkData "B", (450, 300), (1/10, 0)⟩]
        = [⟨"A", mkData "A", (325, 300), (-(1/10), 0)⟩, ⟨"B", mkData "B", (475, 300), (1/10, 0)⟩] := by
      norm_num [collisionPass, pairIndices_two, applyCollision, orR,
        cexForceOptions, sqrt_ten_thousand, List.set]
    have hdamp : dampingPass cexForceOptions
        [⟨"A", mkData "A", (325, 300), (-(1/10), 0)⟩, ⟨"B", mkData "B", (475, 300), (1/10, 0)⟩]
        = [⟨"A", mkData "A", (16283/50, 300), (33/50, 0)⟩,
           ⟨"B", mkData "B", (23717/50, 300), (-(33/50), 0)⟩] := by
      norm_num [dampingPass, cexForceOptions]
    show (runIterations cexForceOptions [] cexForceOptions.iterations
        [⟨"A", mkData "A", (350, 300), (0, 0)⟩, ⟨"B", mkData "B", (450, 300), (0, 0)⟩]).map _ = _
    rw [show cexForceOptions.iterations = 1 from rfl]
    rw [show runIterations cexForceOptions [] 1
        [⟨"A", mkData "A", (350, 300), (0, 0)⟩, ⟨"B", mkData "B", (450, 300), (0, 0)⟩]
        = forceStep cexForceOptions []
          [⟨"A", mkData "A", (350, 300), (0, 0)⟩, ⟨"B", mkData "B", (450, 300), (0, 0)⟩] from rfl]
    rw [forceStep]
    rw [show attractionPass cexForceOptions []
        (repulsionPass cexForceOptions
          [⟨"A", mkData "A", (350, 300), (0, 0)⟩, ⟨"B", mkData "B", (450, 300), (0, 0)⟩])
        = repulsionPass cexForceOptions
          [⟨"A", mkData "A", (350, 300), (0, 0)⟩, ⟨"B", mkData "B", (450, 300), (0, 0)⟩] from rfl]
    rw [hrep, hcol, hdamp]
    rfl
  refine ⟨by norm_num [cexForceOptions], ?_⟩
  rw [hout]
  show euclDist ((16283/50 : ℝ), (300:ℝ)) ((23717/50 : ℝ), (300:ℝ)) < _
  rw [euclDist]
  rw [show ((23717/50 : ℝ) - 16283/50) ^ 2 + ((300:ℝ) - 300) ^ 2
      = (3717/25) ^ 2 by norm_num]
  rw [Real.sqrt_sq (by norm_num)]
  norm_num [cexForceOptions]


/-- C3, amended: the minimum-distance guarantee holds at the collision
resolution step, not after the loop.  For a two-node graph at positive
distance and nonzero `repulsionMultiplier`, the collision pass leaves the
nodes at distance `max(previous distance, minDistance*repulsionMultiplier)`
— at least the threshold whenever they were closer.  (The subsequent
damping/centering/integration can re-violate the threshold, as the
counterexample shows.) -/
theorem collisionPass_two_nodes (o : ForceOptions) (a b : FNode)
    (hm : o.repulsionMultiplier ≠ 0)
    (hd : 0 < euclDist a.position b.position) :
    euclDist ((collisionPass o [a, b]).getD 0 dummyFNode).position
             ((collisionPass o [a, b]).getD 1 dummyFNode).position
      = max (euclDist a.position b.position)
            (o.minDistance * o.repulsionMultiplier) := by
  have hDeq : Real.sqrt ((b.position.1 - a.position.1) * (b.position.1 - a.position.1)
        + (b.position.2 - a.position.2) * (b.position.2 - a.position.2))
      = euclDist a.position b.position := by
    rw [euclDist]
    congr 1
    ring
  have hDne : euclDist a.position b.position ≠ 0 := ne_of_gt hd
  have hOrR1 : orR (Real.sqrt ((b.position.1 - a.position.1) * (b.position.1 - a.position.1)
        + (b.position.2 - a.position.2) * (b.position.2 - a.position.2))) 0.0001
      = euclDist a.position b.position := by
    rw [hDeq, orR, if_neg hDne]
  have hOrR2 : orR o.repulsionMultiplier 1 = o.repulsionMultiplier := by
    rw [orR, if_neg hm]
  have hcp : collisionPass o [a, b] = applyCollision o [a, b] (0, 1) := by
    rw [collisionPass, show ([a, b] : List FNode).length = 2 from rfl,
      pairIndices_two]
    rfl
  rw [hcp, applyCollision]
  simp only [List.get?_cons_zero, List.get?_cons_succ, hOrR1, hOrR2]
  by_cases hlt : euclDist a.position b.position
      < o.minDistance * o.repulsionMultiplier
  · rw [if_pos hlt]
    simp only [List.set_cons_zero, List.set_cons_succ, List.getD_cons_zero,
      List.getD_cons_succ]
    set D := euclDist a.position b.position with hDdef
    set eff := o.minDistance * o.repulsionMultiplier with heff
    set dx := b.position.1 - a.position.1 with hdx
    set dy := b.position.2 - a.position.2 with hdy
    have hkey : (b.position.1 + dx / D * ((eff - D) / 2)
          - (a.position.1 - dx / D * ((eff - D) / 2))) ^ 2
        + (b.position.2 + dy / D * ((eff - D) / 2)
          - (a.position.2 - dy / D * ((eff - D) / 2))) ^ 2
        = (eff / D) ^ 2 * (dx ^ 2 + dy ^ 2) := by
      have h1 : b.position.1 + dx / D * ((eff - D) / 2)
          - (a.position.1 - dx / D * ((eff - D) / 2)) = dx * eff / D := by
        rw [hdx]
        field_simp
        ring
      have h2 : b.position.2 + dy / D * ((eff - D) / 2)
          - (a.position.2 - dy / D * ((eff - D) / 2)) = dy * eff / D := by
        rw [hdy]
        field_simp
        ring
      rw [h1, h2]
      field_simp
      ring
    show euclDist _ _ = _
    rw [euclDist]
    simp only []
    rw [hkey]
    have hDsq : Real.sqrt (dx ^ 2 + dy ^ 2) = D := by
      rw [hDdef, euclDist]
    have heffpos : (0:ℝ) ≤ eff / D := by
      have : (0:ℝ) < eff := lt_trans hd hlt
      positivity
    rw [Real.sqrt_mul (by positivity) (dx ^ 2 + dy ^ 2),
      Real.sqrt_sq heffpos, hDsq]
    rw [max_eq_right (le_of_lt hlt)]
    field_simp
  · rw [if_neg hlt]
    simp only [List.getD_cons_zero, List.getD_cons_succ]
    rw [max_eq_left (le_of_not_lt hlt)]

/-- Witness for the amended C3: two nodes 100 apart with the
counterexample options are pushed to exactly `max 100 150 = 150` by the
collision pass. -/
theorem collisionPass_two_nodes_witness :
    (cexForceOptions.repulsionMultiplier ≠ 0 ∧
      0 < euclDist ((350:ℝ), (300:ℝ)) ((450:ℝ), (300:ℝ))) ∧
    euclDist ((collisionPass cexForceOptions
          [⟨"A", mkData "A", (350, 300), (0, 0)⟩, ⟨"B", mkData "B", (450, 300), (0, 0)⟩]).getD 0
        dummyFNode).position
      ((collisionPass cexForceOptions
          [⟨"A", mkData "A", (350, 300), (0, 0)⟩, ⟨"B", mkData "B", (450, 300), (0, 0)⟩]).getD 1
        dummyFNode).position
      = max (euclDist ((350:ℝ), (300:ℝ)) ((450:ℝ), (300:ℝ)))
          (cexForceOptions.minDistance * cexForceOptions.repulsionMultiplier) :=
  ⟨⟨by norm_num [cexForceOptions], by
      rw [euclDist]
      rw [show (((450:ℝ), (300:ℝ)).1 - ((350:ℝ), (300:ℝ)).1) ^ 2
          + (((450:ℝ), (300:ℝ)).2 - ((350:ℝ), (300:ℝ)).2) ^ 2
          = (100:ℝ) ^ 2 by norm_num]
      rw [Real.sqrt_sq (by norm_num)]
      norm_num⟩,
    collisionPass_two_nodes cexForceOptions
      ⟨"A", mkData "A", (350, 300), (0, 0)⟩ ⟨"B", mkData "B", (450, 300), (0, 0)⟩
      (by norm_num [cexForceOptions])
      (by
        rw [euclDist]
        rw [show ((((450:ℝ), (300:ℝ)) : ℝ × ℝ).1 - (((350:ℝ), (300:ℝ)) : ℝ × ℝ).1) ^ 2
            + ((((450:ℝ), (300:ℝ)) : ℝ × ℝ).2 - (((350:ℝ), (300:ℝ)) : ℝ × ℝ).2) ^ 2
            = (100:ℝ) ^ 2 by norm_num]
        rw [Real.sqrt_sq (by norm_num)]
        norm_num)⟩


/-! ## Frame lemmas (C9) -/

theorem frameOK_refl (nodes : List LNode) : FrameOK nodes nodes :=
  ⟨rfl, fun _ => ⟨rfl, rfl⟩⟩

theorem frameOK_set (nodes ps : List LNode) (h : FrameOK nodes ps) (i : Nat)
    (p : ℚ × ℚ) :
    FrameOK nodes (ps.set i { nodes.getD i dummyNode with position := p }) := by
  obtain ⟨hlen, hk⟩ := h
  refine ⟨by rw [List.length_set, hlen], fun k => ?_⟩
  rw [List.getD_eq_getElem?_getD, List.getElem?_set]
  by_cases hik : i = k
  · subst hik
    by_cases hlt : i < ps.length
    · simp only [if_pos rfl, if_pos hlt, Option.getD_some]
      exact ⟨rfl, rfl⟩
    · simp only [if_pos rfl, if_neg hlt, Option.getD_none]
      have hk2 := hk i
      rw [List.getD_eq_getElem?_getD ps] at hk2
      rw [List.getElem?_eq_none (by omega)] at hk2
      exact hk2
  · rw [if_neg hik, ← List.getD_eq_getElem?_getD]
    exact hk k

theorem frameOK_setPosById (nodes ps : List LNode) (h : FrameOK nodes ps)
    (i : String) (p : ℚ × ℚ) : FrameOK nodes (setPosById ps i p) := by
  obtain ⟨hlen, hk⟩ := h
  refine ⟨by rw [setPosById_length, hlen], fun k => ?_⟩
  obtain ⟨h1, h2⟩ := setPosById_getD_frame ps i p k
  obtain ⟨h3, h4⟩ := hk k
  exact ⟨h1.trans h3, h2.trans h4⟩

theorem frameOK_applyPairs (nodes ps : List LNode) (h : FrameOK nodes ps)
    (pairs : List (String × (ℚ × ℚ))) : FrameOK nodes (applyPairs pairs ps) := by
  induction pairs generalizing ps with
  | nil => exact h
  | cons pr rest ih =>
      rw [applyPairs_cons]
      exact ih _ (frameOK_setPosById nodes ps h pr.1 pr.2)

theorem frameOK_placeIsolatedLoop (nodes : List LNode) (o : HierOptions)
    (N : Nat) :
    ∀ (l : List (Nat × LNode)) (cY cX : ℚ) (ps : List LNode),
      FrameOK nodes ps → FrameOK nodes (placeIsolatedLoop o N l cY cX ps) := by
  intro l
  induction l with
  | nil => intro cY cX ps h; exact h
  | cons idxn rest ih =>
      intro cY cX ps h
      obtain ⟨index, node⟩ := idxn
      rw [placeIsolatedLoop_cons]
      exact ih _ _ _ (frameOK_setPosById nodes ps h _ _)

theorem frameOK_hierarchical (nodes : List LNode) (edges : List LEdge)
    (o : HierOptions) :
    FrameOK nodes (calculateHierarchicalLayout nodes edges o) := by
  by_cases h0 : nodes.length = 0
  · rw [calculateHierarchicalLayout, if_pos h0]
    exact frameOK_refl nodes
  · rw [calculateHierarchicalLayout, if_neg h0]
    show FrameOK nodes (placeIsolatedLoop _ _ _ _ _
      (placeConnectedLevels _ _ (nodes.map (fun n => n))))
    rw [List.map_id', placeConnectedLevels_eq]
    exact frameOK_placeIsolatedLoop nodes o _ _ _ _ _
      (frameOK_applyPairs nodes nodes (frameOK_refl nodes) _)

theorem frameOK_placeXLoop (g y : ℚ) :
    ∀ (l : List LNode) (c : ℚ), FrameOK l (placeXLoop g y l c) := by
  intro l
  induction l with
  | nil => intro c; exact frameOK_refl []
  | cons n rest ih =>
      intro c
      obtain ⟨hlen, hk⟩ := ih (c + orQ (nodeWidthOf n) 320 + g)
      refine ⟨by simpa [placeXLoop] using hlen, fun k => ?_⟩
      match k with
      | 0 => exact ⟨rfl, rfl⟩
      | (j+1) => exact hk j

theorem frameOK_xLayout (nodes : List LNode) (o : XOptions) :
    FrameOK nodes (calculateXLayout nodes o) := by
  by_cases h0 : nodes.length = 0
  · rw [calculateXLayout, if_pos h0]; exact frameOK_refl nodes
  · rw [calculateXLayout, if_neg h0]; exact frameOK_placeXLoop _ _ nodes _

theorem frameOK_placeYLoop (g x : ℚ) :
    ∀ (l : List LNode) (c : ℚ), FrameOK l (placeYLoop g x l c) := by
  intro l
  induction l with
  | nil => intro c; exact frameOK_refl []
  | cons n rest ih =>
      intro c
      obtain ⟨hlen, hk⟩ := ih (c + orQ (nodeHeightOf n) 100 + g)
      refine ⟨by simpa [placeYLoop] using hlen, fun k => ?_⟩
      match k with
      | 0 => exact ⟨rfl, rfl⟩
      | (j+1) => exact hk j

theorem frameOK_yLayout (nodes : List LNode) (o : YOptions) :
    FrameOK nodes (calculateYLayout nodes o) := by
  by_cases h0 : nodes.length = 0
  · rw [calculateYLayout, if_pos h0]; exact frameOK_refl nodes
  · rw [calculateYLayout, if_neg h0]; exact frameOK_placeYLoop _ _ nodes _

theorem frameOK_boxPlaceRow (nodes : List LNode) (o : BoxOptions)
    (widths : List ℚ) (rowStartY : ℚ) :
    ∀ (idxs : List Nat) (xc : ℚ) (ps : List LNode), FrameOK nodes ps →
      FrameOK nodes (boxPlaceRow nodes o widths rowStartY idxs xc ps) := by
  intro idxs
  induction idxs with
  | nil => intro xc ps h; exact h
  | cons i rest ih =>
      intro xc ps h
      exact ih _ _ (frameOK_set nodes ps h i _)

theorem frameOK_boxRowsLoop (nodes : List LNode) (o : BoxOptions)
    (widths : List ℚ) (startY : ℚ) :
    ∀ (rws : List (List Nat × ℚ)) (accY : ℚ) (ps : List LNode),
      FrameOK nodes ps →
      FrameOK nodes (boxRowsLoop nodes o widths startY rws accY ps) := by
  intro rws
  induction rws with
  | nil => intro accY ps h; exact h
  | cons rw0 rest ih =>
      intro accY ps h
      obtain ⟨indices, maxH⟩ := rw0
      exact ih _ _ (frameOK_boxPlaceRow nodes o widths _ indices _ ps h)

theorem frameOK_boxCompactRow (nodes : List LNode) (o : BoxOptions)
    (widths heights : List ℚ) (cols : Nat) (csY : ℚ) :
    ∀ (idxs : List Nat) (xc : ℚ) (colAcc : List ℚ) (ps : List LNode),
      FrameOK nodes ps →
      FrameOK nodes (boxCompactRow nodes o widths heights cols csY idxs xc
        colAcc ps).2 := by
  intro idxs
  induction idxs with
  | nil => intro xc colAcc ps h; exact h
  | cons i rest ih =>
      intro xc colAcc ps h
      exact ih _ _ _ (frameOK_set nodes ps h i _)

theorem frameOK_boxCompactRows (nodes : List LNode) (o : BoxOptions)
    (widths heights : List ℚ) (cols : Nat) (csY : ℚ) :
    ∀ (rws : List (List Nat)) (colAcc : List ℚ) (ps : List LNode),
      FrameOK nodes ps →
      FrameOK nodes (boxCompactRows nodes o widths heights cols csY rws
        colAcc ps) := by
  intro rws
  induction rws with
  | nil => intro colAcc ps h; exact h
  | cons indices rest ih =>
      intro colAcc ps h
      exact ih _ _ (frameOK_boxCompactRow nodes o widths heights cols csY
        indices _ colAcc ps h)

theorem frameOK_boxLayout (nodes : List LNode) (o : BoxOptions) :
    FrameOK nodes (calculateBoxLayout nodes o) := by
  by_cases h0 : nodes.length = 0
  · rw [calculateBoxLayout, if_pos h0]; exact frameOK_refl nodes
  · rw [calculateBoxLayout, if_neg h0]
    by_cases hc : o.compact
    · rw [if_neg (by simp [hc])]
      exact frameOK_boxCompactRows nodes o _ _ _ _ _ _ nodes (frameOK_refl nodes)
    · rw [if_pos (by simp [hc])]
      exact frameOK_boxRowsLoop nodes o _ _ _ _ nodes (frameOK_refl nodes)


theorem circular_frame (nodes : List RNode) (o : CircOptions) :
    (calculateCircularLayout nodes o).length = nodes.length ∧
    ∀ k : Nat, ((calculateCircularLayout nodes o).getD k dummyRNode).id
        = (nodes.getD k dummyRNode).id ∧
      ((calculateCircularLayout nodes o).getD k dummyRNode).data
        = (nodes.getD k dummyRNode).data := by
  by_cases h0 : nodes.length = 0
  · rw [calculateCircularLayout, if_pos h0]
    exact ⟨rfl, fun k => ⟨rfl, rfl⟩⟩
  · rw [calculateCircularLayout, if_neg h0]
    have hlen : (nodes.enum.map (fun idxn =>
        let angle := (idxn.1 : ℝ) * ((2 * Real.pi) / (nodes.length : ℝ))
          - Real.pi / 2
        { idxn.2 with position := (o.centerX + o.radius * Real.cos angle,
            o.centerY + o.radius * Real.sin angle) : RNode })).length
        = nodes.length := by
      rw [List.length_map, List.enum_length]
    refine ⟨hlen, fun k => ?_⟩
    by_cases hk : k < nodes.length
    · constructor
      · rw [List.getD_eq_getElem _ _ (by rw [hlen]; exact hk),
          List.getElem_map, List.getElem_enum,
          List.getD_eq_getElem _ _ hk]
      · rw [List.getD_eq_getElem _ _ (by rw [hlen]; exact hk),
          List.getElem_map, List.getElem_enum,
          List.getD_eq_getElem _ _ hk]
    · rw [List.getD_eq_getElem?_getD,
        List.getElem?_eq_none (by rw [hlen]; omega),
        List.getD_eq_getElem?_getD, List.getElem?_eq_none (by omega)]
      exact ⟨rfl, rfl⟩

theorem map_frame_set (ns : List FNode) :
    ∀ (i : Nat) (v : FNode),
      (∀ c, ns.get? i = some c → v.id = c.id ∧ v.data = c.data) →
      (ns.set i v).map (fun n => (n.id, n.data))
        = ns.map (fun n => (n.id, n.data)) := by
  induction ns with
  | nil => intro i v _; rfl
  | cons a rest ih =>
      intro i v hv
      match i with
      | 0 =>
          obtain ⟨h1, h2⟩ := hv a rfl
          simp [List.set_cons_zero, h1, h2]
      | (j+1) =>
          simp only [List.set_cons_succ, List.map_cons]
          exact congrArg (fun t => (a.id, a.data) :: t)
            (ih j v (fun c hc => hv c hc))

theorem applyRepulsion_map_frame (o : ForceOptions) (ns : List FNode)
    (ij : Nat × Nat) :
    (applyRepulsion o ns ij).map (fun n => (n.id, n.data))
      = ns.map (fun n => (n.id, n.data)) := by
  obtain ⟨i, j⟩ := ij
  rw [applyRepulsion]
  split
  case _ nodeA nodeB h1 h2 =>
    rw [map_frame_set]
    · exact map_frame_set ns i _ (fun c hc => by
        rw [h1] at hc
        injection hc with hc1
        rw [← hc1]
        exact ⟨rfl, rfl⟩)
    · intro c hc
      by_cases hij : i = j
      · subst hij
        have hlt : i < ns.length := by
          by_contra hge
          rw [List.get?_eq_getElem?, List.getElem?_eq_none (by omega)] at h1
          exact absurd h1 (by simp)
        rw [List.get?_eq_getElem?, List.getElem?_set] at hc
        rw [if_pos rfl, if_pos hlt] at hc
        injection hc with hc1
        rw [← hc1]
        rw [h1] at h2
        injection h2 with h2a
        rw [h2a]
        exact ⟨rfl, rfl⟩
      · rw [List.get?_eq_getElem?, List.getElem?_set, if_neg hij,
          ← List.get?_eq_getElem?, h2] at hc
        injection hc with hc1
        rw [← hc1]
        exact ⟨rfl, rfl⟩
  case _ =>
    rfl

theorem updateTargetVelocity_map_frame (ns1 : List FNode) (ti : Nat)
    (fx fy : ℝ) :
    (updateTargetVelocity ns1 ti fx fy).map (fun n => (n.id, n.data))
      = ns1.map (fun n => (n.id, n.data)) := by
  rw [updateTargetVelocity]
  split
  case _ tnode htn =>
    exact map_frame_set ns1 ti _ (fun c hc => by
      rw [htn] at hc
      injection hc with hc1
      rw [← hc1]
      exact ⟨rfl, rfl⟩)
  case _ => rfl

theorem applyAttraction_map_frame (o : ForceOptions) (ns : List FNode)
    (e : LEdge) :
    (applyAttraction o ns e).map (fun n => (n.id, n.data))
      = ns.map (fun n => (n.id, n.data)) := by
  rw [applyAttraction]
  split
  case _ si ti hsi hti =>
    split
    case _ sourceNode targetNode hs ht =>
      rw [updateTargetVelocity_map_frame]
      exact map_frame_set ns si _ (fun c hc => by
        rw [hs] at hc
        injection hc with hc1
        rw [← hc1]
        exact ⟨rfl, rfl⟩)
    case _ => rfl
  case _ => rfl

theorem applyCollision_map_frame (o : ForceOptions) (ns : List FNode)
    (ij : Nat × Nat) :
    (applyCollision o ns ij).map (fun n => (n.id, n.data))
      = ns.map (fun n => (n.id, n.data)) := by
  obtain ⟨i, j⟩ := ij
  rw [applyCollision]
  split
  case _ nodeA nodeB h1 h2 =>
    by_cases hlt : orR (Real.sqrt ((nodeB.position.1 - nodeA.position.1)
          * (nodeB.position.1 - nodeA.position.1)
        + (nodeB.position.2 - nodeA.position.2)
          * (nodeB.position.2 - nodeA.position.2))) 0.0001
        < o.minDistance * (orR o.repulsionMultiplier 1)
    · rw [if_pos hlt]
      rw [map_frame_set]
      · exact map_frame_set ns i _ (fun c hc => by
          rw [h1] at hc
          injection hc with hc1
          rw [← hc1]
          exact ⟨rfl, rfl⟩)
      · intro c hc
        by_cases hij : i = j
        · subst hij
          have hlt2 : i < ns.length := by
            by_contra hge
            rw [List.get?_eq_getElem?, List.getElem?_eq_none (by omega)] at h1
            exact absurd h1 (by simp)
          rw [List.get?_eq_getElem?, List.getElem?_set] at hc
          rw [if_pos rfl, if_pos hlt2] at hc
          injection hc with hc1
          rw [← hc1]
          rw [h1] at h2
          injection h2 with h2a
          rw [h2a]
          exact ⟨rfl, rfl⟩
        · rw [List.get?_eq_getElem?, List.getElem?_set, if_neg hij,
            ← List.get?_eq_getElem?, h2] at hc
          injection hc with hc1
          rw [← hc1]
          exact ⟨rfl, rfl⟩
    · rw [if_neg hlt]
  case _ => rfl

theorem foldl_map_frame {β : Type}
    (f : List FNode → β → List FNode)
    (hf : ∀ ns b, (f ns b).map (fun n => (n.id, n.data))
      = ns.map (fun n => (n.id, n.data))) :
    ∀ (bs : List β) (ns : List FNode),
      (bs.foldl f ns).map (fun n => (n.id, n.data))
        = ns.map (fun n => (n.id, n.data)) := by
  intro bs
  induction bs with
  | nil => intro ns; rfl
  | cons b rest ih =>
      intro ns
      rw [List.foldl_cons, ih, hf]

theorem forceStep_map_frame (o : ForceOptions) (edges : List LEdge)
    (ns : List FNode) :
    (forceStep o edges ns).map (fun n => (n.id, n.data))
      = ns.map (fun n => (n.id, n.data)) := by
  rw [forceStep]
  have hdamp : ∀ ms : List FNode,
      (dampingPass o ms).map (fun n => (n.id, n.data))
        = ms.map (fun n => (n.id, n.data)) := by
    intro ms
    rw [dampingPass, List.map_map]
    rfl
  rw [hdamp, collisionPass, foldl_map_frame _ (applyCollision_map_frame o),
    attractionPass, foldl_map_frame _ (applyAttraction_map_frame o),
    repulsionPass, foldl_map_frame _ (applyRepulsion_map_frame o)]

theorem runIterations_map_frame (o : ForceOptions) (edges : List LEdge) :
    ∀ (k : Nat) (ns : List FNode),
      (runIterations o edges k ns).map (fun n => (n.id, n.data))
        = ns.map (fun n => (n.id, n.data)) := by
  intro k
  induction k with
  | zero => intro ns; rfl
  | succ k ih =>
      intro ns
      rw [runIterations, ih, forceStep_map_frame]

theorem map_frame_getD {xs ys : List RNode}
    (h : xs.map (fun n => (n.id, n.data)) = ys.map (fun n => (n.id, n.data)))
    (k : Nat) :
    (xs.getD k dummyRNode).id = (ys.getD k dummyRNode).id ∧
    (xs.getD k dummyRNode).data = (ys.getD k dummyRNode).data := by
  have hlen : xs.length = ys.length := by
    have h2 := congrArg List.length h
    simpa using h2
  by_cases hk : k < ys.length
  · have h1 := congrArg (fun l => l.getD k (dummyRNode.id, dummyRNode.data)) h
    simp only at h1
    rw [List.getD_eq_getElem _ _ (by rw [List.length_map]; omega),
      List.getElem_map, List.getD_eq_getElem _ _ (by rw [List.length_map]; omega),
      List.getElem_map] at h1
    rw [List.getD_eq_getElem _ _ (by omega), List.getD_eq_getElem _ _ hk]
    exact ⟨congrArg Prod.fst h1, congrArg Prod.snd h1⟩
  · rw [List.getD_eq_getElem?_getD, List.getElem?_eq_none (by omega),
      List.getD_eq_getElem?_getD, List.getElem?_eq_none (by omega)]
    exact ⟨rfl, rfl⟩

theorem force_frame (nodes : List RNode) (edges : List LEdge)
    (o : ForceOptions) (rand : Nat → ℝ × ℝ) :
    (calculateForceDirectedLayout nodes edges o rand).length = nodes.length ∧
    ∀ k : Nat, ((calculateForceDirectedLayout nodes edges o rand).getD k
          dummyRNode).id = (nodes.getD k dummyRNode).id ∧
      ((calculateForceDirectedLayout nodes edges o rand).getD k
          dummyRNode).data = (nodes.getD k dummyRNode).data := by
  by_cases h0 : nodes.length = 0
  · rw [calculateForceDirectedLayout, if_pos h0]
    exact ⟨rfl, fun k => ⟨rfl, rfl⟩⟩
  · rw [calculateForceDirectedLayout, if_neg h0]
    have hids : ((runIterations o edges o.iterations (nodes.enum.map (fun idxn =>
        { id := idxn.2.id
        , data := idxn.2.data
        , position := (o.centerX + ((rand idxn.1).1 - 0.5) * 400,
            o.centerY + ((rand idxn.1).2 - 0.5) * 400)
        , velocity := ((0:ℝ), (0:ℝ)) : FNode }))).map (fun f =>
          { id := f.id, data := f.data, position := f.position : RNode })).map
          (fun n => (n.id, n.data))
        = nodes.map (fun n => (n.id, n.data)) := by
      rw [List.map_map]
      rw [show ((fun n : RNode => (n.id, n.data)) ∘ (fun f : FNode =>
          { id := f.id, data := f.data, position := f.position : RNode }))
          = (fun f : FNode => (f.id, f.data)) from rfl]
      rw [runIterations_map_frame, List.map_map]
      rw [show ((fun f : FNode => (f.id, f.data)) ∘ (fun idxn : Nat × RNode =>
          { id := idxn.2.id
          , data := idxn.2.data
          , position := (o.centerX + ((rand idxn.1).1 - 0.5) * 400,
              o.centerY + ((rand idxn.1).2 - 0.5) * 400)
          , velocity := ((0:ℝ), (0:ℝ)) : FNode }))
          = ((fun n : RNode => (n.id, n.data)) ∘ Prod.snd) from rfl]
      rw [← List.map_map, List.enum_map_snd]
    have hlen : ((runIterations o edges o.iterations (nodes.enum.map (fun idxn =>
        { id := idxn.2.id
        , data := idxn.2.data
        , position := (o.centerX + ((rand idxn.1).1 - 0.5) * 400,
            o.centerY + ((rand idxn.1).2 - 0.5) * 400)
        , velocity := ((0:ℝ), (0:ℝ)) : FNode }))).map (fun f =>
          { id := f.id, data := f.data, position := f.position : RNode })).length
        = nodes.length := by
      have h2 := congrArg List.length hids
      simpa using h2
    exact ⟨hlen, fun k => map_frame_getD hids k⟩


/-- C9: every layout strategy returns a list of the same length with the
same `id` at every index (order preserved) and every field other than
`position` unchanged: all six strategies preserve the whole `data` payload
at every index, and the force-directed pass strips the transient velocity
by construction (its result type has no velocity field).  Out-of-range
indices read the default node on both sides. -/
theorem layout_strategies_frame (qnodes : List LNode) (rnodes : List RNode)
    (edges : List LEdge) (ho : HierOptions) (co : CircOptions)
    (fo : ForceOptions) (rand : Nat → ℝ × ℝ) (xo : XOptions)
    (yo : YOptions) (bo : BoxOptions) (k : Nat) :
    ((calculateHierarchicalLayout qnodes edges ho).length = qnodes.length ∧
      ((calculateHierarchicalLayout qnodes edges ho).getD k dummyNode).id
        = (qnodes.getD k dummyNode).id ∧
      ((calculateHierarchicalLayout qnodes edges ho).getD k dummyNode).data
        = (qnodes.getD k dummyNode).data) ∧
    ((calculateCircularLayout rnodes co).length = rnodes.length ∧
      ((calculateCircularLayout rnodes co).getD k dummyRNode).id
        = (rnodes.getD k dummyRNode).id ∧
      ((calculateCircularLayout rnodes co).getD k dummyRNode).data
        = (rnodes.getD k dummyRNode).data) ∧
    ((calculateForceDirectedLayout rnodes edges fo rand).length
        = rnodes.length ∧
      ((calculateForceDirectedLayout rnodes edges fo rand).getD k
          dummyRNode).id = (rnodes.getD k dummyRNode).id ∧
      ((calculateForceDirectedLayout rnodes edges fo rand).getD k
          dummyRNode).data = (rnodes.getD k dummyRNode).data) ∧
    ((calculateXLayout qnodes xo).length = qnodes.length ∧
      ((calculateXLayout qnodes xo).getD k dummyNode).id
        = (qnodes.getD k dummyNode).id ∧
      ((calculateXLayout qnodes xo).getD k dummyNode).data
        = (qnodes.getD k dummyNode).data) ∧
    ((calculateYLayout qnodes yo).length = qnodes.length ∧
      ((calculateYLayout qnodes yo).getD k dummyNode).id
        = (qnodes.getD k dummyNode).id ∧
      ((calculateYLayout qnodes yo).getD k dummyNode).data
        = (qnodes.getD k dummyNode).data) ∧
    ((calculateBoxLayout qnodes bo).length = qnodes.length ∧
      ((calculateBoxLayout qnodes bo).getD k dummyNode).id
        = (qnodes.getD k dummyNode).id ∧
      ((calculateBoxLayout qnodes bo).getD k dummyNode).data
        = (qnodes.getD k dummyNode).data) := by
  obtain ⟨hh1, hh2⟩ := frameOK_hierarchical qnodes edges ho
  obtain ⟨hc1, hc2⟩ := circular_frame rnodes co
  obtain ⟨hf1, hf2⟩ := force_frame rnodes edges fo rand
  obtain ⟨hx1, hx2⟩ := frameOK_xLayout qnodes xo
  obtain ⟨hy1, hy2⟩ := frameOK_yLayout qnodes yo
  obtain ⟨hb1, hb2⟩ := frameOK_boxLayout qnodes bo
  exact ⟨⟨hh1, (hh2 k).1, (hh2 k).2⟩, ⟨hc1, (hc2 k).1, (hc2 k).2⟩,
    ⟨hf1, (hf2 k).1, (hf2 k).2⟩,
    ⟨hx1, (hx2 k).1, (hx2 k).2⟩, ⟨hy1, (hy2 k).1, (hy2 k).2⟩,
    ⟨hb1, (hb2 k).1, (hb2 k).2⟩⟩

end DbErdGen
